import Mathlib

/-!
Verification of the incremental state-reconciliation core of Eltern-Emailer.

The development shallowly embeds the reconciliation logic of `main.js` and
`elternportal.js`:

* `JsMap` models plain JavaScript objects used as dictionaries (key presence
  via the `in` operator, truthiness of values, assignment, `delete`),
  preserving insertion order like JS objects do.
* `sendEmails` models the delivery pump (`main.js`, `sendEmails`): the loop
  over the global `INBOUND` queue, the `mute` short-circuit, per-task error
  accumulation, and the synthesized admin summary task.  The external SMTP
  transport is abstracted by a per-index outcome oracle `sendOk`; commit
  callbacks are abstract state transformers.
* the per-category diff functions (`buildEmailsForAnnouncements`,
  `buildEmailsForThreads`, `buildEmailsForInquiries`, `readSubstitutions`,
  `readEvents`) are embedded over already-scraped data; the browser layer,
  attachment downloads, and real `md5` are abstracted (the hash is an
  arbitrary function parameter `md5f`).
* the reverse channel is embedded by `processNewEmail` (per-message intake
  core) and `sendMessagesToTeachers` (posting loop, observed as a trace of
  mark-done / submit actions with failure oracles for the navigation and
  submission phases).

Timestamp arithmetic on calendar days (`Date` with `setHours`/`setDate`) is
abstracted: day boundaries enter as explicit epoch-milli parameters.
-/

namespace ElternEmailer

/-! ### JS object dictionaries -/

/-- Entry-list lookup underlying `JsMap.lookup`. -/
def lookupEntries {κ β : Type} [DecidableEq κ] : List (κ × β) → κ → Option β
  | [], _ => none
  | p :: rest, k => if p.1 = k then some p.2 else lookupEntries rest k

/-- Entry-list write underlying `JsMap.set`: updates in place if the key
exists, otherwise appends (JS objects keep insertion order). -/
def setEntries {κ β : Type} [DecidableEq κ] : List (κ × β) → κ → β → List (κ × β)
  | [], k, v => [(k, v)]
  | p :: rest, k, v => if p.1 = k then (k, v) :: rest else p :: setEntries rest k v

/-- A JavaScript object used as a dictionary: an insertion-ordered list of
key/value pairs. -/
structure JsMap (κ β : Type) where
  entries : List (κ × β)
  deriving DecidableEq, Repr

namespace JsMap

variable {κ β : Type} [DecidableEq κ]

/-- The empty object `{}`. -/
def empty : JsMap κ β := ⟨[]⟩

/-- Property read `m[k]`, as an `Option`. -/
def lookup (m : JsMap κ β) (k : κ) : Option β := lookupEntries m.entries k

/-- The JS `k in m` operator: key presence. -/
def hasKey (m : JsMap κ β) (k : κ) : Bool := (m.lookup k).isSome

/-- Property write `m[k] = v`. -/
def set (m : JsMap κ β) (k : κ) (v : β) : JsMap κ β := ⟨setEntries m.entries k v⟩

/-- The JS `delete m[k]` operator. -/
def erase (m : JsMap κ β) (k : κ) : JsMap κ β :=
  ⟨m.entries.filter (fun p => decide (p.1 ≠ k))⟩

/-- `Object.keys(m)`. -/
def keys (m : JsMap κ β) : List κ := m.entries.map Prod.fst

/-- Truthiness of `m[k]` for numeric values: absent keys read as `undefined`
(falsy) and the value `0` is falsy. -/
def truthy (m : JsMap κ Nat) (k : κ) : Bool := decide ((m.lookup k).getD 0 ≠ 0)

end JsMap

/-! ### String helpers corresponding to the JS string operations used -/

/-- `s.replace(/.*@/, '')`: the greedy match strips everything up to and
including the last `@`; without an `@` the regex does not match and the
string is unchanged (both cases are this one formula). -/
def domainAfterLastAt (s : String) : String :=
  String.mk ((s.data.reverse.takeWhile (· ≠ '@')).reverse)

/-- `s.replace(/"/g, '')`. -/
def stripQuotes (s : String) : String :=
  String.mk (s.data.filter (fun c => decide (c ≠ '"')))

/-- `fwd.replace('@', '+' + tid + '@')`: JS `String.replace` with a string
pattern replaces only the first occurrence. -/
def insertTagChars (tid : String) : List Char → List Char
  | [] => []
  | c :: rest => if c = '@' then '+' :: (tid.data ++ '@' :: rest) else c :: insertTagChars tid rest

/-- The forwarding address with `+teacherId` inserted before the first `@`. -/
def insertTag (fwd tid : String) : String := String.mk (insertTagChars tid fwd.data)

/-- Local part of an email address (everything before the first `@`). -/
def localPart (fwd : String) : String := String.mk (fwd.data.takeWhile (· ≠ '@'))

/-- Domain part of an email address (everything after the first `@`). -/
def domainPart (fwd : String) : String :=
  String.mk ((fwd.data.dropWhile (· ≠ '@')).drop 1)

/-- Whitespace test for the JS `trim()` model. -/
def isJsSpace (c : Char) : Bool := c = ' ' || c = '\n' || c = '\t' || c = '\r'

/-- `s.trim()`. -/
def trimStr (s : String) : String :=
  String.mk (((s.data.dropWhile isJsSpace).reverse.dropWhile isJsSpace).reverse)

/-- `s.toLowerCase()` (ASCII-level model). -/
def lowerStr (s : String) : String := String.mk (s.data.map Char.toLower)

/-- `s || dflt` for strings: JS falls back on the empty (falsy) string. -/
def defaultIfEmpty (s dflt : String) : String := if s = "" then dflt else s

/-- `s.split(c)` at the character level (JS `String.split` with a one-char
separator). -/
def splitChars (c : Char) : List Char → List (List Char)
  | [] => [[]]
  | x :: rest =>
    match splitChars c rest with
    | [] => [[x]]
    | g :: gs => if x = c then [] :: g :: gs else (x :: g) :: gs

/-- `s.split(c)` returning strings. -/
def splitOnChar (c : Char) (s : String) : List String :=
  (splitChars c s.data).map String.mk

/-! ### Email messages

Only the fields the reconciliation logic manipulates are modelled; the
addressing done from `CONFIG.*.recipients` and attachments are presentation
plumbing and are omitted. -/

/-- An outbound email as assembled by `email.js` helpers. -/
structure EmailMsg where
  fromName : String := ""
  subject : String := ""
  text : String := ""
  html : String := ""
  messageId : String := ""
  references : List String := []
  replyTo : String := ""
  deriving DecidableEq, Repr

/-- `email.js`: `buildMessageId(localId)` =
`` `${localId}.eltern-emailer@${CONFIG.options.adminAddress.replace(/.*@/, '')}` ``. -/
def buildMessageId (adminAddress localId : String) : String :=
  localId ++ ".eltern-emailer@" ++ domainAfterLastAt adminAddress

/-- `email.js`: `buildEmailAdmin(subject, options)` (from-name `Eltern-Emailer`,
addressed to the admin). -/
def buildEmailAdmin (subject text : String) : EmailMsg :=
  { fromName := "Eltern-Emailer", subject := subject, text := text }

/-- The configuration slice the embedded functions read. -/
structure EpConfig where
  adminAddress : String := ""
  tag : String := ""
  forwardingAddress : Option String := none
  deriving DecidableEq, Repr

/-! ### Delivery pump (`main.js`, `sendEmails`) -/

/-- An entry of the global `INBOUND` queue: an email plus its `ok` commit
callback; `ignoreFailure` is set only on the synthesized summary task. -/
structure Task (σ : Type) where
  email : EmailMsg
  ok : σ → σ
  ignoreFailure : Bool := false

/-- Observed outcome of the pump for one queue index: `sent = none` means no
delivery was attempted (mute mode), `committed` records whether the task's
`ok` callback ran. -/
structure PumpEntry where
  idx : Nat
  sent : Option Bool
  committed : Bool
  deriving DecidableEq, Repr

/-- Result of a pump drain: final ledger state, the per-index log, the queue
content reached at the end of the loop (before `INBOUND = []` clears it), and
whether the loop consumed every index (fuel sufficiency; the fuel chosen in
`sendEmails` always suffices). -/
structure PumpResult (σ : Type) where
  state : σ
  log : List PumpEntry
  queueAfter : List (Task σ)
  drained : Bool

/-- The admin summary email synthesized after the last task when sends
failed; `errors` holds the failed indices (stand-ins for the JSON-serialized
transport errors, which live outside the model). -/
def summaryEmail (errors : List Nat) (queueLen : Nat) : EmailMsg :=
  buildEmailAdmin "Emailversand fehlgeschlagen"
    (toString errors.length ++ " von " ++ toString queueLen
      ++ " Email(s) konnte(n) nicht gesendet werden.\n\nFehler:\n"
      ++ String.intercalate ",\n" (errors.map toString)
      ++ "\n\nWeitere Details im Logfile.")

/-- The summary task pushed onto `INBOUND`: `ok: () => {}` and
`ignoreFailure: true`. -/
def summaryTask (σ : Type) (errors : List Nat) (queueLen : Nat) : Task σ :=
  { email := summaryEmail errors queueLen, ok := fun s => s, ignoreFailure := true }

/-- The `for (let i = 0; i < INBOUND.length; ++i)` loop of `sendEmails`.
`queue.length` is re-read on every test, so the loop also visits the summary
task it appends; the fuel argument only bounds the recursion and never runs
out for the fuel chosen in `sendEmails`.  In mute mode the task's `ok` runs
and the loop `continue`s before the error bookkeeping. -/
def sendEmailsLoop {σ : Type} (mute : Bool) (sendOk : Nat → Bool) :
    Nat → List (Task σ) → Nat → List Nat → σ → List PumpEntry → PumpResult σ
  | 0, queue, _, _, st, log => ⟨st, log, queue, false⟩
  | fuel + 1, queue, i, errors, st, log =>
    match queue[i]? with
    | none => ⟨st, log, queue, true⟩
    | some e =>
      if mute then
        sendEmailsLoop mute sendOk fuel queue (i + 1) errors (e.ok st) (log ++ [⟨i, none, true⟩])
      else
        let ok := sendOk i
        let st' := if ok then e.ok st else st
        let errors' := if ok then errors else if e.ignoreFailure then errors else errors ++ [i]
        let log' := log ++ [⟨i, some ok, ok⟩]
        if i + 1 = queue.length ∧ errors' ≠ [] then
          sendEmailsLoop mute sendOk fuel
            (queue ++ [summaryTask σ errors' queue.length]) (i + 1) [] st' log'
        else
          sendEmailsLoop mute sendOk fuel queue (i + 1) errors' st' log'

/-- `main.js`, `sendEmails`: early-returns on an empty queue, otherwise
drains it.  At the end the code sets `INBOUND = []`; `queueAfter` reports the
queue as it stood before that clearing. -/
def sendEmails {σ : Type} (mute : Bool) (sendOk : Nat → Bool)
    (queue : List (Task σ)) (st : σ) : PumpResult σ :=
  if queue.isEmpty then ⟨st, [], queue, true⟩
  else sendEmailsLoop mute sendOk (queue.length + 2) queue 0 [] st []

/-- The log entries the pump produces for indices `i, i+1, …, i+n-1` in
non-mute mode: each index is attempted exactly once and committed iff the
send succeeded. -/
def pumpEntries (sendOk : Nat → Bool) (i n : Nat) : List PumpEntry :=
  (List.range' i n).map (fun j => ⟨j, some (sendOk j), sendOk j⟩)

/-- The indices among `i, …, i+n-1` whose send fails. -/
def failedIdx (sendOk : Nat → Bool) (i n : Nat) : List Nat :=
  (List.range' i n).filter (fun j => ! sendOk j)

/-- Running every task's commit callback in queue order (what a fully
successful — or muted — drain does to the ledger). -/
def commitAll {σ : Type} (queue : List (Task σ)) (st : σ) : σ :=
  queue.foldl (fun s t => t.ok s) st

/-! ### Announcements (`main.js`, `buildEmailsForAnnouncements`) -/

/-- A scraped announcement (attachment payload omitted). -/
structure Announcement where
  id : String
  body : String
  subject : String
  dateString : String
  deriving DecidableEq, Repr

/-- An announcement task: its `ok` callback performs the portal confirmation
click and then `processedAnnouncements[a.id] = 1`; the ledger effect is the
recorded `commitId`. -/
structure AnnTask where
  email : EmailMsg
  commitId : String
  deriving DecidableEq, Repr

/-- `buildEmailsForAnnouncements`: keep the announcements whose id is not in
the seen-set, reverse into chronological order, build one task each.  The
slice is not touched by the diff itself. -/
def buildEmailsForAnnouncements (cfg : EpConfig) (announcements : List Announcement)
    (processed : JsMap String Nat) : List AnnTask :=
  ((announcements.filter (fun a => ! processed.hasKey a.id)).reverse).map
    (fun a =>
      { email := { fromName := cfg.tag ++ " Elternbrief", subject := a.subject, text := a.body },
        commitId := a.id })

/-- Running every produced task's `ok` callback:
`processedAnnouncements[a.id] = 1` for each. -/
def applyAnnouncementsCommits (tasks : List AnnTask)
    (processed : JsMap String Nat) : JsMap String Nat :=
  tasks.foldl (fun m t => m.set t.commitId 1) processed

/-! ### Teacher threads (`main.js`, `buildEmailsForThreads`) -/

/-- One message inside a thread. -/
structure ThreadMsg where
  author : String
  body : String
  deriving DecidableEq, Repr

/-- A thread of messages with one teacher. -/
structure Thread where
  id : String
  subject : String
  teacherName : String
  messages : List ThreadMsg
  deriving DecidableEq, Repr

/-- A teacher together with the scraped threads. -/
structure Teacher where
  id : String
  threads : List Thread
  deriving DecidableEq, Repr

/-- A thread task; its `ok` callback is `processedThreads[thread.id][i] = 1`,
recorded as `(threadId, pos)`. -/
structure ThreadTask where
  teacherId : String
  threadId : String
  pos : Nat
  email : EmailMsg
  deriving DecidableEq, Repr

/-- The email for message `i` of a thread, including the synthetic message
id, the reference chain to position `i - 1`, and the reply-to teacher
address.  (The code builds the reply-to without a closing `>` because of a
stray semicolon at main.js:440; embedded as-is.) -/
def mkThreadTask (cfg : EpConfig) (teacher : Teacher) (thread : Thread)
    (i : Nat) (msg : ThreadMsg) : ThreadTask :=
  let messageIdBase := "thread-" ++ teacher.id ++ "-" ++ thread.id ++ "-"
  { teacherId := teacher.id, threadId := thread.id, pos := i,
    email :=
      { fromName := cfg.tag ++ " " ++ msg.author,
        subject := thread.subject,
        text := msg.body,
        messageId := buildMessageId cfg.adminAddress (messageIdBase ++ toString i),
        references :=
          if 0 < i then [buildMessageId cfg.adminAddress (messageIdBase ++ toString (i - 1))]
          else [],
        replyTo :=
          match cfg.forwardingAddress with
          | some fwd =>
            "\"" ++ stripQuotes thread.teacherName ++ "\" <" ++ insertTag fwd teacher.id
          | none => "" } }

/-- `buildEmailsForThreads`: walks teachers and threads, inserts an empty
per-thread map for threads not yet in the slice, and emits one task per
message index not yet marked, in ascending index order.  Returns the emitted
tasks and the slice as mutated by the walk (only the empty-map insertions). -/
def buildEmailsForThreads (cfg : EpConfig) (teachers : List Teacher)
    (processed : JsMap String (JsMap Nat Nat)) :
    List ThreadTask × JsMap String (JsMap Nat Nat) :=
  teachers.foldl (fun acc teacher =>
    teacher.threads.foldl (fun acc thread =>
      let p := if acc.2.hasKey thread.id then acc.2 else acc.2.set thread.id JsMap.empty
      let inner := (p.lookup thread.id).getD JsMap.empty
      let newTasks := thread.messages.enum.filterMap (fun im =>
        if inner.hasKey im.1 then none
        else some (mkThreadTask cfg teacher thread im.1 im.2))
      (acc.1 ++ newTasks, p)) acc) ([], processed)

/-- Running every produced thread task's `ok` callback:
`processedThreads[t.threadId][t.pos] = 1` for each. -/
def applyThreadsCommits (tasks : List ThreadTask)
    (processed : JsMap String (JsMap Nat Nat)) : JsMap String (JsMap Nat Nat) :=
  tasks.foldl
    (fun m t => m.set t.threadId (((m.lookup t.threadId).getD JsMap.empty).set t.pos 1)) processed

/-- `i in processedThreads[tid]` — membership in the per-thread seen-set.  A
missing outer key reads as the empty object, exactly like the freshly
inserted `{}` of the walk, so the walk's in-flight insertions do not change
this predicate. -/
def memNested (m : JsMap String (JsMap Nat Nat)) (tid : String) (i : Nat) : Bool :=
  ((m.lookup tid).getD JsMap.empty).hasKey i

/-- The task list of `buildEmailsForThreads` as a pure function of the
incoming slice (the walk's only mutation — inserting `{}` for unseen thread
ids — does not affect which indices count as seen). -/
def threadTasksPure (cfg : EpConfig) (teachers : List Teacher)
    (p : JsMap String (JsMap Nat Nat)) : List ThreadTask :=
  teachers.flatMap (fun teacher => teacher.threads.flatMap (fun thread =>
    thread.messages.enum.filterMap (fun im =>
      if memNested p thread.id im.1 then none
      else some (mkThreadTask cfg teacher thread im.1 im.2))))

/-! ### Inquiries (`elternportal.js`, `buildEmailsForInquiries`) -/

/-- One message of an inquiry ("Klassenleitung" communication). -/
structure InqMsg where
  text : String
  date : Nat
  deriving DecidableEq, Repr

/-- A scraped inquiry: subject plus one or two messages. -/
structure Inquiry where
  subject : String
  messages : List InqMsg
  deriving DecidableEq, Repr

/-- An inquiry task; its `ok` callback is `state.inquiries[hash] = 1`. -/
structure InqTask where
  email : EmailMsg
  commitHash : String
  deriving DecidableEq, Repr

/-- `INQUIRY_AUTHOR` of `elternportal.js`. -/
def INQUIRY_AUTHOR : List String := ["Eltern", "Klassenleitung", "UNKNOWN"]

/-- The content hash of one inquiry message:
`` md5(`${inquiry.subject}\n${message.date}\n${message.text}`) ``. -/
def inquiryHash (md5f : String → String) (subject : String) (m : InqMsg) : String :=
  md5f (subject ++ "\n" ++ toString m.date ++ "\n" ++ m.text)

/-- `buildEmailsForInquiries`: builds `prunedHashes` mapping every currently
visible message hash to `1`, emits a task for each hash that is not truthy in
the incoming slice (with a reference chain to the previous message of the
same inquiry), and finally replaces the slice by `prunedHashes`.  Returns
(tasks, new slice). -/
def buildEmailsForInquiries (cfg : EpConfig) (md5f : String → String)
    (inquiries : List Inquiry) (stateInquiries : JsMap String Nat) :
    List InqTask × JsMap String Nat :=
  let prunedAndTasks := inquiries.foldl (fun acc inquiry =>
    (inquiry.messages.enum.foldl
      (fun (acc2 : (List InqTask × JsMap String Nat) × Option String) jm =>
        let hash := inquiryHash md5f inquiry.subject jm.2
        let pruned := acc2.1.2.set hash 1
        let tasks :=
          if stateInquiries.truthy hash then acc2.1.1
          else acc2.1.1 ++ [{
            email :=
              { fromName := cfg.tag ++ " " ++ (INQUIRY_AUTHOR.getD (min jm.1 2) "UNKNOWN"),
                subject := inquiry.subject,
                text := jm.2.text,
                messageId := buildMessageId cfg.adminAddress ("inquiry-" ++ hash),
                references :=
                  match acc2.2 with
                  | some ph => [buildMessageId cfg.adminAddress ("inquiry-" ++ ph)]
                  | none => [] },
            commitHash := hash }]
        ((tasks, pruned), some hash))
      (acc, none)).1)
    (([], JsMap.empty) : List InqTask × JsMap String Nat)
  prunedAndTasks

/-- One inquiry task's `ok` callback, which by commit time acts on the
already-replaced slice (`state.inquiries === prunedHashes`). -/
def applyInquiryCommit (slice : JsMap String Nat) (t : InqTask) : JsMap String Nat :=
  slice.set t.commitHash 1

/-! ### Substitution plan (`elternportal.js`, `readSubstitutions`) -/

/-- One day-unit of the substitution plan as scraped: its rendered HTML and
the in-page validity checks (expired day, empty table). -/
structure SubUnit where
  html : String
  expired : Bool
  unitEmpty : Bool
  deriving DecidableEq, Repr

/-- Outcome of the substitutions diff: the optional email task, the slice as
it stands right after the diff (the no-update branch already replaces it by
the new hashes), and the slice the task's `ok` callback installs. -/
structure SubsOutcome where
  task : Option EmailMsg
  sliceAfter : JsMap String Nat
  commitSlice : JsMap String Nat
  deriving Repr

/-- Head of the substitutions email HTML (CSS braces written out). -/
def substitutionsHtmlHead : String :=
  "<!DOCTYPE html><html><head><title>Vertretungsplan</title>\n      <style>\n        table, td \x7b border: 1px solid; \x7d \n        img \x7b display: none; \x7d\n        span.updated div.list \x7b font-weight: bold; display: inline; \x7d\n      </style></head>\n      <body>"

/-- The marker wrapping of an updated day-unit:
`` `<span class="updated">*&nbsp;${sub.html}</span>` ``. -/
def markUpdated (html : String) : String :=
  "<span class=\"updated\">*&nbsp;" ++ html ++ "</span>"

/-- `readSubstitutions`: filter out expired/empty day-units, hash each unit's
rendered HTML, mark units whose hash is not yet in the seen-set; with no
update the slice is replaced by the new hashes immediately and no email is
sent, otherwise one email contains every valid unit (updated ones wrapped in
a marker span) and only its `ok` callback installs the new hashes. -/
def readSubstitutions (md5f : String → String) (heading lastUpdated : String)
    (units : List SubUnit) (subs : JsMap String Nat) : SubsOutcome :=
  let substitutions := units.filter (fun u => ! (u.expired || u.unitEmpty))
  let newHashes := substitutions.foldl
    (fun m s => m.set (md5f s.html) 1) (JsMap.empty : JsMap String Nat)
  let marked := substitutions.map (fun s => (s, ! subs.hasKey (md5f s.html)))
  let haveUpdates := marked.any (fun p => p.2)
  if !haveUpdates then
    { task := none, sliceAfter := newHashes, commitSlice := newHashes }
  else
    let contentHTML := marked.foldl (fun acc p =>
      acc ++ (if p.2 then markUpdated p.1.html else p.1.html)) heading
    let fullHTML := substitutionsHtmlHead ++ (contentHTML ++ lastUpdated) ++ "</body></html>"
    { task := some { fromName := "Vertretungsplan", subject := "Vertretungsplan", html := fullHTML },
      sliceAfter := subs, commitSlice := newHashes }

/-! ### Calendar events (`main.js`, `readEvents`) -/

/-- A scraped event: start-of-day timestamp and the rendered row HTML (the
HTML contains the date, so it doubles as the ledger key). -/
structure EventItem where
  ts : Nat
  html : String
  deriving DecidableEq, Repr

/-- An event with its diff status: `1` new, `0` previously notified, `-1`
removed (see `STATUS_TO_HTML`). -/
structure EvStatus where
  ts : Nat
  html : String
  status : Int
  deriving DecidableEq, Repr

/-- `STATUS_TO_HTML` of `main.js`. -/
def statusToHtml (s : Int) : String :=
  if s = -1 then "<tr class=\"removed\"><td>--"
  else if s = 0 then "<tr><td>"
  else if s = 1 then "<tr class=\"new\"><td>*"
  else ""

/-- Head of the events email HTML (CSS braces written out); the lookahead-days
option only appears in this display text. -/
def eventsHtmlHead (lookaheadDays : Nat) : String :=
  "<!DOCTYPE html><html><head><title>Bevorstehende Termine</title>"
  ++ "<style>"
  ++ "table \x7b border-collapse: collapse; \x7d "
  ++ "tr \x7b border-bottom: 1pt solid; \x7d "
  ++ "tr.new \x7b font-weight: bold; \x7d "
  ++ "tr.removed \x7b text-decoration: line-through; \x7d "
  ++ "</style>"
  ++ "</head><body><h2>Termine in den n&auml;chsten " ++ toString lookaheadDays
  ++ " Tagen</h2><table>"

/-- One row of the events email:
`STATUS_TO_HTML[e.status] + '</td>' + e.html + '</tr>'`. -/
def eventRow (e : EvStatus) : String :=
  statusToHtml e.status ++ "</td>" ++ e.html ++ "</tr>"

/-- Outcome of the events diff: the optional email task, the ledger slice as
pruned in place by the diff, and the status-annotated list captured by the
`ok` callback. -/
structure EventsOutcome where
  task : Option EmailMsg
  prunedPrev : JsMap String Nat
  statusList : List EvStatus
  deriving DecidableEq, Repr

/-- `readEvents`: prune ledger entries dated before today, classify the fresh
events within the lookahead window as new/unchanged, infer removal for ledger
entries absent from the upcoming set, and emit one email enumerating all of
them sorted by date iff at least one new or removed entry exists. -/
def readEvents (todayZeroTs lookaheadTs lookaheadDays : Nat)
    (prev : JsMap String Nat) (events : List EventItem) : EventsOutcome :=
  let prev' : JsMap String Nat := ⟨prev.entries.filter (fun p => decide (¬ p.2 < todayZeroTs))⟩
  let upcoming := (events.filter (fun e => decide (todayZeroTs ≤ e.ts ∧ e.ts ≤ lookaheadTs))).map
    (fun e => EvStatus.mk e.ts e.html (if prev'.hasKey e.html then 0 else 1))
  let numNewEvents := (upcoming.filter (fun e => decide (e.status = 1))).length
  let upcomingEventsHtml := upcoming.map (fun e => e.html)
  let removedEvents := (prev'.entries.filter (fun p => ! upcomingEventsHtml.contains p.1)).map
    (fun p => EvStatus.mk p.2 p.1 (-1))
  let numRemovedEvents := removedEvents.length
  let allUpcoming := (upcoming ++ removedEvents).insertionSort (fun a b => a.ts ≤ b.ts)
  if numNewEvents + numRemovedEvents = 0 then
    { task := none, prunedPrev := prev', statusList := allUpcoming }
  else
    let emailHTML := allUpcoming.foldl
      (fun acc e => acc ++ eventRow e)
      (eventsHtmlHead lookaheadDays)
    let emailHTML := emailHTML ++ "</table></body></html>"
    { task := some { fromName := "Termine", subject := "Bevorstehende Termine", html := emailHTML },
      prunedPrev := prev', statusList := allUpcoming }

/-- The events `okHandler`: new events are written into the ledger, removed
events are deleted, unchanged events are untouched. -/
def applyEventsOk (statusList : List EvStatus) (prev : JsMap String Nat) : JsMap String Nat :=
  statusList.foldl (fun m e =>
    if e.status = 1 then m.set e.html e.ts
    else if e.status = -1 then m.erase e.html
    else m) prev

/-- Substring containment (`∃` decomposition), used to state that an email
body carries a marker row. -/
def strContains (s sub : String) : Prop := ∃ l r, s = l ++ (sub ++ r)

/-- `readEvents`' local `previousEvents` after the in-place prune of entries
dated before today (named here so the components of `readEvents` can be
reasoned about separately; `readEvents` is definitionally the composite). -/
def evPruned (todayZeroTs : Nat) (prev : JsMap String Nat) : JsMap String Nat :=
  ⟨prev.entries.filter (fun p => decide (¬ p.2 < todayZeroTs))⟩

/-- `readEvents`' local `upcomingEvents`: fresh events within the lookahead
window, classified `0` (already in the pruned ledger) or `1` (new). -/
def evUpcoming (todayZeroTs lookaheadTs : Nat) (prev : JsMap String Nat)
    (events : List EventItem) : List EvStatus :=
  (events.filter (fun e => decide (todayZeroTs ≤ e.ts ∧ e.ts ≤ lookaheadTs))).map
    (fun e => EvStatus.mk e.ts e.html
      (if (evPruned todayZeroTs prev).hasKey e.html then 0 else 1))

/-- `readEvents`' local `removedEvents`: pruned-ledger entries absent from the
upcoming set, classified `-1`. -/
def evRemoved (todayZeroTs lookaheadTs : Nat) (prev : JsMap String Nat)
    (events : List EventItem) : List EvStatus :=
  ((evPruned todayZeroTs prev).entries.filter
      (fun p => ! ((evUpcoming todayZeroTs lookaheadTs prev events).map
        (fun e => e.html)).contains p.1)).map
    (fun p => EvStatus.mk p.2 p.1 (-1))

/-- `readEvents`' local `allUpcomingEvents`: upcoming and removed events
merged, sorted by date. -/
def evAll (todayZeroTs lookaheadTs : Nat) (prev : JsMap String Nat)
    (events : List EventItem) : List EvStatus :=
  ((evUpcoming todayZeroTs lookaheadTs prev events)
    ++ evRemoved todayZeroTs lookaheadTs prev events).insertionSort (fun a b => a.ts ≤ b.ts)

/-! ### Reverse channel intake (`main.js`, `processNewEmail`) -/

/-- A parsed address (`value` entry of mailparser's `to`/`cc`/`from`). -/
structure Addr where
  address : String
  name : String := ""
  deriving DecidableEq, Repr

/-- A fetched inbound message after `simpleParser`, keyed by its IMAP
sequence number. -/
structure InboundEmail where
  seq : Nat
  toAddrs : List Addr := []
  ccAddrs : List Addr := []
  fromAddrs : List Addr := []
  fromText : String := ""
  inReplyTo : Option String := none
  subject : Option String := none
  text : Option String := none
  deriving DecidableEq, Repr

/-- The `CONFIG.options.incomingEmail` slice: the regexp derived by
`createIncomingEmailRegExp` exists iff `forwardingAddress` is set. -/
structure IncomingConfig where
  forwardingAddress : Option String := none
  allowForwardingFrom : List String := []
  deriving DecidableEq, Repr

/-- An entry of the `OUTBOUND` queue; `markDone` flags IMAP message `seq`. -/
structure OutboundMsg where
  teacherId : String
  replyThreadId : Option String
  subject : Option String
  text : String
  seq : Nat
  deriving DecidableEq, Repr

/-- Per-message outcome of `processNewEmail`: admin alerts queued to
`INBOUND`, forwarding entries queued to `OUTBOUND`, and whether the message
remains in `ignoredMessages` (then flagged `\Answered` at the end of the
poll). -/
structure IntakeResult where
  adminTasks : List EmailMsg
  outbound : List OutboundMsg
  flaggedProcessed : Bool
  deriving DecidableEq, Repr

/-- The regexp built by `createIncomingEmailRegExp`
(`(?:^|<)local(?:\+(\d+))@domain(?:$|>)`) applied to a bare recipient
address: matches `local+tag@domain` with a mandatory non-empty digit tag and
returns the tag capture. -/
def matchForwarding (fwd addr : String) : Option String :=
  let lp := localPart fwd
  let dp := domainPart fwd
  if lp.data.isPrefixOf addr.data then
    match addr.data.drop lp.data.length with
    | '+' :: rest =>
      let tag := rest.takeWhile Char.isDigit
      if decide (tag ≠ []) && decide (rest.drop tag.length = '@' :: dp.data) then
        some (String.mk tag)
      else none
    | _ => none
  else none

/-- The admin alert for an unauthorized sender. -/
def rejectedAdminEmail (rejectedFrom fwd : String) : EmailMsg :=
  buildEmailAdmin "Nachricht von fremdem Absender ignoriert"
    ("Nachricht von \"" ++ rejectedFrom ++ "\" an " ++ fwd
      ++ " wurde ignoriert.\n\nACHTUNG: Diese Adresse sollte nicht veröffentlicht werden!")

/-- The reply thread coordinates extracted from `In-Reply-To` when it starts
with `<thread-`: elements 1 and 2 of `split('-')`; anything else compares
unequal to every tag (the `[0, -1, -1]` default). -/
def replyCoords (irt : Option String) : Option (String × String) :=
  match irt with
  | none => none
  | some s =>
    if "<thread-".data.isPrefixOf s.data then
      match (splitOnChar '-' s)[1]?, (splitOnChar '-' s)[2]? with
      | some tid, some thid => some (tid, thid)
      | _, _ => none
    else none

/-- The impersonation check of `processNewEmail`: a missing or empty `From:`
is never allowed (`rejectedFrom = ''`); otherwise the first `From:` address,
lowercased, must be in the allow-list, else `rejectedFrom` is the display
text of the sender. -/
def rejectedFromOf (allow : List String) (msg : InboundEmail) : Option String :=
  match msg.fromAddrs with
  | [] => some ""
  | a0 :: _ =>
    if allow.contains (lowerStr a0.address) then none
    else some msg.fromText

/-- The `for (const recipient of recipients)` body of `processNewEmail`: a
matching recipient appends one `OUTBOUND` entry and removes the message from
`ignoredMessages` (the `Bool` component). -/
def pushRecipient (fwd : String) (msg : InboundEmail) (reply : Option (String × String))
    (acc : List OutboundMsg × Bool) (r : Addr) : List OutboundMsg × Bool :=
  match matchForwarding fwd r.address with
  | none => acc
  | some teacherId =>
    let isReply : Bool := match reply with
      | some (tid, _) => decide (teacherId = tid)
      | none => false
    (acc.1 ++ [{
      teacherId := teacherId,
      replyThreadId := if isReply then reply.map Prod.snd else none,
      subject :=
        if isReply then none
        else some (defaultIfEmpty (trimStr (msg.subject.getD "")) "(kein Betreff)"),
      text := defaultIfEmpty (trimStr (msg.text.getD "")) "(kein Text)",
      seq := msg.seq }], false)

/-- The per-message core of `processNewEmail`: recipient filtering against
the forwarding pattern, the sender allow-list check with its admin alert, and
the per-recipient `OUTBOUND` entries.  A message stays in `ignoredMessages`
(is flagged processed right away) unless a forwarding entry was produced for
it. -/
def processNewEmail (cfg : IncomingConfig) (msg : InboundEmail) : IntakeResult :=
  match cfg.forwardingAddress with
  | none => { adminTasks := [], outbound := [], flaggedProcessed := true }
  | some fwd =>
    let recipients := (msg.toAddrs ++ msg.ccAddrs).filter
      (fun a => (matchForwarding fwd a.address).isSome)
    if recipients.isEmpty then
      { adminTasks := [], outbound := [], flaggedProcessed := true }
    else
      match rejectedFromOf cfg.allowForwardingFrom msg with
      | some rf =>
        { adminTasks := [rejectedAdminEmail rf fwd], outbound := [], flaggedProcessed := true }
      | none =>
        let reply := replyCoords msg.inReplyTo
        let pushed := recipients.foldl (pushRecipient fwd msg reply) ([], true)
        { adminTasks := [], outbound := pushed.1, flaggedProcessed := pushed.2 }

/-! ### Posting to the portal (`elternportal.js` / `main.js`,
`sendMessagesToTeachers`)

The loop is observed as a trace of the two actions the mark-done-timing
property speaks about: flagging the source message and clicking send for one
chunk.  Navigation/typing failures before the click and submission failures
are driven by per-(message, part) oracles; either failure throws into the
per-message `catch`, which abandons the remaining parts. -/

/-- An observable action of the posting loop, annotated with the index of the
outbound entry it belongs to. -/
inductive PostAction where
  | markDone (msgIdx seq : Nat)
  | submitPart (msgIdx seq part : Nat) (ok : Bool)
  deriving DecidableEq, Repr

/-- `capacity`: full limit if the text fits, otherwise 8 characters are
reserved for the `[n/N] ` marker. -/
def capacityFor (sizeLimit textLen : Nat) : Nat :=
  if textLen ≤ sizeLimit then sizeLimit else sizeLimit - 8

/-- `numParts = Math.ceil(text.length / capacity)`. -/
def numPartsFor (capacity textLen : Nat) : Nat := (textLen + capacity - 1) / capacity

/-- The `for (let i = 0; i < numParts; i++)` body: navigate and fill the
form; on the first part flag the source message done; then click send.  A
navigation failure aborts before any flagging of this part; a submission
failure aborts after.  The fuel is the number of remaining parts. -/
def postParts (navOk submitOk : Nat → Bool) (mi seq : Nat) :
    Nat → Nat → List PostAction
  | 0, _ => []
  | remaining + 1, i =>
    if navOk i then
      (if i = 0 then [PostAction.markDone mi seq] else [])
      ++ [PostAction.submitPart mi seq i (submitOk i)]
      ++ (if submitOk i then postParts navOk submitOk mi seq remaining (i + 1) else [])
    else []

/-- The trace a single outbound entry produces (`m.1` is its queue index). -/
def postMsgTrace (sizeLimit : Nat) (navOk submitOk : Nat → Nat → Bool)
    (m : Nat × OutboundMsg) : List PostAction :=
  let capacity := capacityFor sizeLimit m.2.text.length
  let np := numPartsFor capacity m.2.text.length
  postParts (navOk m.1) (submitOk m.1) m.1 m.2.seq np 0

/-- `sendMessagesToTeachers` over a snapshot of `OUTBOUND` (the code copies
and clears the global first), as the concatenated trace of per-message
actions. -/
def sendMessagesToTeachers (sizeLimit : Nat) (navOk submitOk : Nat → Nat → Bool)
    (outbound : List OutboundMsg) : List PostAction :=
  (outbound.enum).flatMap (postMsgTrace sizeLimit navOk submitOk)

/-- The message index an action is annotated with. -/
def PostAction.msgIdx : PostAction → Nat
  | .markDone mi _ => mi
  | .submitPart mi _ _ _ => mi

/-- Whether an action is a mark-done. -/
def PostAction.isMarkDone : PostAction → Bool
  | .markDone _ _ => true
  | .submitPart _ _ _ _ => false

/-! ## Theorems -/

/-! ### JsMap laws -/

theorem lookupEntries_setEntries {κ β : Type} [DecidableEq κ]
    (es : List (κ × β)) (k k' : κ) (v : β) :
    lookupEntries (setEntries es k v) k' = if k = k' then some v else lookupEntries es k' := by
  induction es with
  | nil => simp [setEntries, lookupEntries]
  | cons p rest ih =>
    simp only [setEntries]
    by_cases hpk : p.1 = k
    · rw [if_pos hpk]
      by_cases hkk : k = k'
      · simp [lookupEntries, hkk]
      · have hpk' : ¬ p.1 = k' := by rw [hpk]; exact hkk
        simp [lookupEntries, hkk, hpk']
    · rw [if_neg hpk]
      by_cases hpk' : p.1 = k'
      · have hkk : ¬ k = k' := fun h => hpk (h ▸ hpk')
        simp [lookupEntries, hpk', hkk]
      · simp [lookupEntries, hpk', ih]

theorem JsMap.lookup_set {κ β : Type} [DecidableEq κ] (m : JsMap κ β) (k k' : κ) (v : β) :
    (m.set k v).lookup k' = if k = k' then some v else m.lookup k' :=
  lookupEntries_setEntries m.entries k k' v

theorem JsMap.lookup_set_self {κ β : Type} [DecidableEq κ] (m : JsMap κ β) (k : κ) (v : β) :
    (m.set k v).lookup k = some v := by
  simp [JsMap.lookup_set]

theorem JsMap.lookup_set_ne {κ β : Type} [DecidableEq κ] (m : JsMap κ β) (k k' : κ) (v : β)
    (h : k ≠ k') : (m.set k v).lookup k' = m.lookup k' := by
  simp [JsMap.lookup_set, h]

theorem JsMap.hasKey_set {κ β : Type} [DecidableEq κ] (m : JsMap κ β) (k k' : κ) (v : β) :
    (m.set k v).hasKey k' = (decide (k = k') || m.hasKey k') := by
  by_cases h : k = k' <;> simp [JsMap.hasKey, JsMap.lookup_set, h]

theorem lookupEntries_mem {κ β : Type} [DecidableEq κ] {es : List (κ × β)} {k : κ} {v : β}
    (h : lookupEntries es k = some v) : (k, v) ∈ es := by
  induction es with
  | nil => simp [lookupEntries] at h
  | cons p rest ih =>
    by_cases hpk : p.1 = k
    · simp only [lookupEntries, if_pos hpk] at h
      have hv : p.2 = v := Option.some.inj h
      have hp : p = (k, v) := Prod.ext hpk hv
      rw [← hp]
      exact List.mem_cons_self p rest
    · simp only [lookupEntries, if_neg hpk] at h
      exact List.mem_cons_of_mem _ (ih h)

theorem lookupEntries_filter_of_nodup {κ β : Type} [DecidableEq κ]
    {es : List (κ × β)} (hnd : (es.map Prod.fst).Nodup) (p : κ × β → Bool) {k : κ} {v : β}
    (h : lookupEntries es k = some v) (hp : p (k, v) = true) :
    lookupEntries (es.filter p) k = some v := by
  induction es with
  | nil => simp [lookupEntries] at h
  | cons q rest ih =>
    simp only [List.map_cons, List.nodup_cons] at hnd
    by_cases hqk : q.1 = k
    · simp only [lookupEntries, if_pos hqk] at h
      have hq : q = (k, v) := Prod.ext hqk (Option.some.inj h)
      subst hq
      simp [List.filter_cons, hp, lookupEntries]
    · simp only [lookupEntries, if_neg hqk] at h
      have hrest := ih hnd.2 h
      by_cases hpq : p q = true
      · simp only [List.filter_cons, hpq, if_pos trivial, lookupEntries, if_neg hqk]
        exact hrest
      · simp only [List.filter_cons]
        rw [if_neg (by simp [hpq])]
        exact hrest

theorem lookupEntries_none_of_not_mem {κ β : Type} [DecidableEq κ]
    {es : List (κ × β)} {k : κ} (h : ∀ v, (k, v) ∉ es) (hkeys : k ∉ es.map Prod.fst) :
    lookupEntries es k = none := by
  induction es with
  | nil => rfl
  | cons p rest ih =>
    simp only [List.map_cons, List.mem_cons] at hkeys
    push_neg at hkeys
    simp only [lookupEntries, if_neg (fun hh : p.1 = k => hkeys.1 hh.symm)]
    exact ih (fun v hv => h v (List.mem_cons_of_mem _ hv)) hkeys.2

theorem lookupEntries_eraseFilter {κ β : Type} [DecidableEq κ]
    (es : List (κ × β)) (k k' : κ) :
    lookupEntries (es.filter (fun p => decide (p.1 ≠ k))) k' =
      if k = k' then none else lookupEntries es k' := by
  induction es with
  | nil => by_cases h : k = k' <;> simp [lookupEntries, h]
  | cons p rest ih =>
    by_cases hpk : p.1 = k
    · rw [List.filter_cons, if_neg (by simp [hpk]), ih]
      by_cases hkk : k = k'
      · simp [hkk]
      · have hpk' : ¬ p.1 = k' := by rw [hpk]; exact hkk
        simp [hkk, lookupEntries, hpk']
    · rw [List.filter_cons, if_pos (by simp [hpk])]
      by_cases hpk' : p.1 = k'
      · have hkk : ¬ k = k' := fun h => hpk (h ▸ hpk')
        simp [lookupEntries, hpk', hkk]
      · simp only [lookupEntries, if_neg hpk']
        exact ih

theorem JsMap.lookup_erase {κ β : Type} [DecidableEq κ] (m : JsMap κ β) (k k' : κ) :
    (m.erase k).lookup k' = if k = k' then none else m.lookup k' :=
  lookupEntries_eraseFilter m.entries k k'

/-! ### Delivery pump: C1, C5, C10 -/

theorem sendEmailsLoop_succ {σ : Type} (mute : Bool) (sendOk : Nat → Bool) (fuel : Nat)
    (queue : List (Task σ)) (i : Nat) (errors : List Nat) (st : σ) (log : List PumpEntry) :
    sendEmailsLoop mute sendOk (fuel + 1) queue i errors st log =
      match queue[i]? with
      | none => ⟨st, log, queue, true⟩
      | some e =>
        if mute then
          sendEmailsLoop mute sendOk fuel queue (i + 1) errors (e.ok st)
            (log ++ [⟨i, none, true⟩])
        else
          let ok := sendOk i
          let st' := if ok then e.ok st else st
          let errors' := if ok then errors else if e.ignoreFailure then errors else errors ++ [i]
          let log' := log ++ [⟨i, some ok, ok⟩]
          if i + 1 = queue.length ∧ errors' ≠ [] then
            sendEmailsLoop mute sendOk fuel
              (queue ++ [summaryTask σ errors' queue.length]) (i + 1) [] st' log'
          else
            sendEmailsLoop mute sendOk fuel queue (i + 1) errors' st' log' := rfl

theorem sendEmailsLoop_commit_iff {σ : Type} (sendOk : Nat → Bool) :
    ∀ (fuel : Nat) (queue : List (Task σ)) (i : Nat) (errors : List Nat) (st : σ)
      (log : List PumpEntry),
    (∀ e ∈ log, (e.committed = true ↔ e.sent = some true)) →
    ∀ e ∈ (sendEmailsLoop false sendOk fuel queue i errors st log).log,
      (e.committed = true ↔ e.sent = some true) := by
  intro fuel
  induction fuel with
  | zero =>
    intro queue i errors st log hlog
    simpa [sendEmailsLoop] using hlog
  | succ n ih =>
    intro queue i errors st log hlog e' he'
    rw [sendEmailsLoop_succ] at he'
    cases hq : queue[i]? with
    | none =>
      rw [hq] at he'
      exact hlog e' (by simpa using he')
    | some e =>
      rw [hq] at he'
      have hentry : ∀ x ∈ log ++ [(⟨i, some (sendOk i), sendOk i⟩ : PumpEntry)],
          (x.committed = true ↔ x.sent = some true) := by
        intro x hx
        rcases List.mem_append.mp hx with h | h
        · exact hlog x h
        · simp only [List.mem_singleton] at h
          subst h
          cases hok : sendOk i <;> simp
      simp only [Bool.false_eq_true, if_false] at he'
      repeat' split at he'
      all_goals exact ih _ _ _ _ _ hentry e' he'

theorem sendEmailsLoop_mute_char {σ : Type} (sendOk : Nat → Bool) :
    ∀ (n extra i : Nat) (queue : List (Task σ)) (errors : List Nat) (st : σ)
      (log : List PumpEntry),
    i + n = queue.length →
    sendEmailsLoop true sendOk (n + extra + 1) queue i errors st log =
      ⟨commitAll (queue.drop i) st,
       log ++ (List.range' i n).map (fun j => ⟨j, none, true⟩), queue, true⟩ := by
  intro n
  induction n with
  | zero =>
    intro extra i queue errors st log hlen
    have hq : queue[i]? = none := List.getElem?_eq_none (by omega)
    have hdrop : queue.drop i = [] := List.drop_eq_nil_of_le (by omega)
    simp [sendEmailsLoop, hq, hdrop, commitAll]
  | succ n ih =>
    intro extra i queue errors st log hlen
    have hi : i < queue.length := by omega
    have hq : queue[i]? = some queue[i] := List.getElem?_eq_getElem hi
    have hfuel : n + 1 + extra + 1 = (n + extra + 1) + 1 := by omega
    rw [hfuel, sendEmailsLoop_succ, hq]
    show sendEmailsLoop true sendOk (n + extra + 1) queue (i + 1) errors (queue[i].ok st)
        (log ++ [⟨i, none, true⟩]) = _
    rw [ih extra (i + 1) queue errors (queue[i].ok st)
      (log ++ [(⟨i, none, true⟩ : PumpEntry)]) (by omega)]
    have hdrop : queue.drop i = queue[i] :: queue.drop (i + 1) := List.drop_eq_getElem_cons hi
    rw [hdrop]
    simp only [commitAll, List.foldl_cons, List.range'_succ, List.map_cons,
      List.append_assoc, List.singleton_append]

/-- C10: with `--mute` the pump runs every queued task's `ok` callback in
order without attempting any delivery (every log entry has `sent = none` and
`committed = true`), the ledger ends up exactly as after an all-successful
drain (`commitAll`), and no summary task is synthesized. -/
theorem sendEmails_mute_commits_all {σ : Type} (sendOk : Nat → Bool)
    (queue : List (Task σ)) (st : σ) :
    (sendEmails true sendOk queue st).state = commitAll queue st
    ∧ (sendEmails true sendOk queue st).log =
        (List.range' 0 queue.length).map (fun j => ⟨j, none, true⟩)
    ∧ (sendEmails true sendOk queue st).queueAfter = queue := by
  unfold sendEmails
  split
  · rename_i hempty
    rw [List.isEmpty_iff.mp hempty]
    simp [commitAll]
  · have h := sendEmailsLoop_mute_char sendOk queue.length 1 0 queue [] st [] (by omega)
    have hfuel : queue.length + 1 + 1 = queue.length + 2 := by omega
    rw [hfuel] at h
    rw [h]
    simp [commitAll]

theorem sendEmailsLoop_after_push {σ : Type} (sendOk : Nat → Bool)
    (queue : List (Task σ)) (errs : List Nat) (st : σ) (log : List PumpEntry) :
    sendEmailsLoop false sendOk 2 (queue ++ [summaryTask σ errs queue.length])
      queue.length [] st log =
      ⟨st, log ++ [⟨queue.length, some (sendOk queue.length), sendOk queue.length⟩],
       queue ++ [summaryTask σ errs queue.length], true⟩ := by
  set s : Task σ := summaryTask σ errs queue.length with hs
  have hig : s.ignoreFailure = true := rfl
  have hok_id : ∀ st' : σ, s.ok st' = st' := fun st' => rfl
  have hq : (queue ++ [s])[queue.length]? = some s := by
    rw [List.getElem?_append]
    simp
  have hq2 : (queue ++ [s])[queue.length + 1]? = none :=
    List.getElem?_eq_none (by simp)
  have hlen : (queue ++ [s]).length = queue.length + 1 := by simp
  show sendEmailsLoop false sendOk (1 + 1) _ _ _ _ _ = _
  cases hok : sendOk queue.length <;>
    simp [sendEmailsLoop, hq, hq2, hlen, hig, hok, hok_id]

theorem sendEmailsLoop_char {σ : Type} (sendOk : Nat → Bool) :
    ∀ (n i : Nat) (queue : List (Task σ)) (errors : List Nat) (st : σ) (log : List PumpEntry),
    i + n = queue.length →
    (∀ t ∈ queue, t.ignoreFailure = false) →
    (errors = [] ∨ 0 < n) →
    (sendEmailsLoop false sendOk (n + 2) queue i errors st log).drained = true
    ∧ (sendEmailsLoop false sendOk (n + 2) queue i errors st log).queueAfter =
        (if errors ++ failedIdx sendOk i n = [] then queue
         else queue ++ [summaryTask σ (errors ++ failedIdx sendOk i n) queue.length])
    ∧ (sendEmailsLoop false sendOk (n + 2) queue i errors st log).log =
        (if errors ++ failedIdx sendOk i n = [] then log ++ pumpEntries sendOk i n
         else log ++ pumpEntries sendOk i n
           ++ [⟨queue.length, some (sendOk queue.length), sendOk queue.length⟩]) := by
  intro n
  induction n with
  | zero =>
    intro i queue errors st log hlen hin h0
    have herr : errors = [] := h0.resolve_right (by omega)
    subst herr
    have hq : queue[i]? = none := List.getElem?_eq_none (by omega)
    simp [sendEmailsLoop, hq, failedIdx, pumpEntries]
  | succ n ih =>
    intro i queue errors st log hlen hin h0
    have hi : i < queue.length := by omega
    have hq : queue[i]? = some queue[i] := List.getElem?_eq_getElem hi
    have hig : queue[i].ignoreFailure = false := hin _ (List.getElem_mem hi)
    have hfail_cons : failedIdx sendOk i (n + 1) =
        (if sendOk i then [] else [i]) ++ failedIdx sendOk (i + 1) n := by
      simp only [failedIdx, List.range'_succ, List.filter_cons]
      cases hok : sendOk i <;> simp
    have hpump_cons : pumpEntries sendOk i (n + 1) =
        (⟨i, some (sendOk i), sendOk i⟩ : PumpEntry) :: pumpEntries sendOk (i + 1) n := by
      simp [pumpEntries, List.range'_succ]
    have hstep := sendEmailsLoop_succ false sendOk (n + 2) queue i errors st log
    rw [hq] at hstep
    simp only [hig, Bool.false_eq_true, if_false] at hstep
    have hfuel : (n + 1 + 2 : Nat) = (n + 2) + 1 := by omega
    rw [hfuel, hstep]
    by_cases hlast : i + 1 = queue.length
    · -- last original index: n = 0
      have hn0 : n = 0 := by omega
      subst hn0
      simp only [Nat.zero_add]
      set errors' := if sendOk i then errors else errors ++ [i] with herr'
      have hfide : errors ++ failedIdx sendOk i 1 = errors' := by
        simp only [failedIdx, List.range'_succ, List.range'_zero, List.filter_cons,
          List.filter_nil, herr']
        cases hok : sendOk i <;> simp
      by_cases hne : errors' ≠ []
      · rw [if_pos ⟨hlast, hne⟩, hlast]
        rw [sendEmailsLoop_after_push sendOk queue errors'
          (if sendOk i then queue[i].ok st else st)
          (log ++ [(⟨i, some (sendOk i), sendOk i⟩ : PumpEntry)])]
        rw [hfide]
        refine ⟨rfl, ?_, ?_⟩
        · rw [if_neg hne]
        · rw [if_neg hne]
          have hps : pumpEntries sendOk i 1 = [⟨i, some (sendOk i), sendOk i⟩] := by
            simp [pumpEntries, List.range'_succ]
          rw [hps]
      · push_neg at hne
        rw [if_neg (by simp [hne])]
        have hok : sendOk i = true := by
          by_contra hokf
          rw [herr', if_neg hokf] at hne
          simp at hne
        have herrnil : errors = [] := by
          rw [herr', if_pos hok] at hne
          exact hne
        have hih := ih (i + 1) queue errors' (if sendOk i then queue[i].ok st else st)
          (log ++ [(⟨i, some (sendOk i), sendOk i⟩ : PumpEntry)])
          (by omega) hin (Or.inl hne)
        rcases hih with ⟨hd, hqa, hlg⟩
        simp only [Nat.zero_add] at hd hqa hlg
        have h1 : errors' ++ failedIdx sendOk (i + 1) 0 = [] := by simp [hne, failedIdx]
        have h2 : errors ++ failedIdx sendOk i 1 = [] := by
          simp [herrnil, failedIdx, List.range'_succ, List.range'_zero, hok]
        refine ⟨hd, ?_, ?_⟩
        · rw [hqa, if_pos h1, if_pos h2]
        · rw [hlg, if_pos h1, if_pos h2]
          simp [pumpEntries, List.range'_succ]
    · -- not the last index: no push possible here
      have hn : 0 < n := by omega
      set errors' := if sendOk i then errors else errors ++ [i] with herr'
      rw [if_neg (by intro h; exact hlast h.1)]
      have := ih (i + 1) queue errors' (if sendOk i then queue[i].ok st else st)
        (log ++ [(⟨i, some (sendOk i), sendOk i⟩ : PumpEntry)])
        (by omega) hin (Or.inr hn)
      rcases this with ⟨hd, hqa, hlg⟩
      have hfide : errors' ++ failedIdx sendOk (i + 1) n =
          errors ++ failedIdx sendOk i (n + 1) := by
        rw [hfail_cons, herr']
        cases hok : sendOk i <;> simp
      refine ⟨hd, ?_, ?_⟩
      · rw [hqa, hfide]
      · rw [hlg, hfide]
        by_cases hz : errors ++ failedIdx sendOk i (n + 1) = []
        · rw [if_pos hz, if_pos hz, hpump_cons]
          simp
        · rw [if_neg hz, if_neg hz, hpump_cons]
          simp [List.append_assoc]

/-- C1 (amended: restricted to mute off — with the `mute` option the code
deliberately commits without sending, see the counterexample): in a non-mute
drain of `sendEmails`, every task attempted by the pump has its `ok` commit
callback invoked if and only if its send was confirmed successful, so no
ledger slice is mutated on behalf of a task whose send failed, and the
ledger is never updated before send success. -/
theorem sendEmails_commit_iff_send {σ : Type} (sendOk : Nat → Bool)
    (queue : List (Task σ)) (st : σ) :
    ∀ e ∈ (sendEmails false sendOk queue st).log,
      (e.committed = true ↔ e.sent = some true) := by
  unfold sendEmails
  split
  · simp
  · exact sendEmailsLoop_commit_iff sendOk _ queue 0 [] st [] (by simp)

/-- Witness for `sendEmails_commit_iff_send` on a one-task queue whose send
succeeds. -/
theorem sendEmails_commit_iff_send_witness :
    ((⟨0, some true, true⟩ : PumpEntry).committed = true ↔
      (⟨0, some true, true⟩ : PumpEntry).sent = some true) :=
  sendEmails_commit_iff_send (σ := Nat) (fun _ => true)
    [⟨{ subject := "A" }, (fun n => n + 1), false⟩] 0 ⟨0, some true, true⟩ (by decide)

/-- C1 counterexample: with the `mute` option on, the single queued task's
send is never attempted (log entry `sent = none`) yet its commit callback
runs and mutates the ledger from `0` to `1` — the claim as stated (commit
iff confirmed send, for every drained task) is false on the code. -/
theorem sendEmails_commit_iff_send_counterexample :
    (sendEmails (σ := Nat) true (fun _ => false)
        [⟨{ subject := "A" }, (fun n => n + 1), false⟩] 0).log = [⟨0, none, true⟩]
    ∧ (sendEmails (σ := Nat) true (fun _ => false)
        [⟨{ subject := "A" }, (fun n => n + 1), false⟩] 0).state = 1
    ∧ ¬ (∀ e ∈ (sendEmails (σ := Nat) true (fun _ => false)
          [⟨{ subject := "A" }, (fun n => n + 1), false⟩] 0).log,
        (e.committed = true ↔ e.sent = some true)) := by
  refine ⟨by decide, by decide, ?_⟩
  intro h
  have := h ⟨0, none, true⟩ (by decide)
  simp at this

/-- C5 (amended: the summary task is appended to `INBOUND` and, because the
loop re-reads `INBOUND.length`, it is attempted in the *same* pass — not
queued for the next iteration): if a non-mute drain of a queue of ordinary
tasks (`ignoreFailure = false`, as every diff-produced task is) has at least
one failing send, then after the last original task exactly one admin
summary task (subject `Emailversand fehlgeschlagen`) is appended; it carries
`ignoreFailure = true`, so its own failure is logged only and never produces
a further summary task, and the log shows it attempted at index
`queue.length` within this drain. -/
theorem sendEmails_summary_synthesis {σ : Type} (sendOk : Nat → Bool)
    (queue : List (Task σ)) (st : σ)
    (hin : ∀ t ∈ queue, t.ignoreFailure = false)
    (hfail : ∃ j, j < queue.length ∧ sendOk j = false) :
    (sendEmails false sendOk queue st).queueAfter =
      queue ++ [summaryTask σ (failedIdx sendOk 0 queue.length) queue.length]
    ∧ (summaryTask σ (failedIdx sendOk 0 queue.length) queue.length).email.subject =
        "Emailversand fehlgeschlagen"
    ∧ (summaryTask σ (failedIdx sendOk 0 queue.length) queue.length).ignoreFailure = true
    ∧ (sendEmails false sendOk queue st).log =
        pumpEntries sendOk 0 queue.length
          ++ [⟨queue.length, some (sendOk queue.length), sendOk queue.length⟩]
    ∧ (sendEmails false sendOk queue st).drained = true := by
  obtain ⟨j, hj, hjf⟩ := hfail
  have hqne : queue ≠ [] := by
    intro h
    rw [h] at hj
    simp at hj
  have hjmem : j ∈ List.range' 0 queue.length := by
    rw [List.mem_range'_1]
    omega
  have hjfl : j ∈ failedIdx sendOk 0 queue.length := by
    simp [failedIdx, List.mem_filter, hjmem, hjf]
  have hfl : failedIdx sendOk 0 queue.length ≠ [] := by
    intro h
    rw [h] at hjfl
    simp at hjfl
  unfold sendEmails
  rw [if_neg (by simp [List.isEmpty_iff, hqne])]
  have hc := sendEmailsLoop_char sendOk queue.length 0 queue [] st []
    (by omega) hin (Or.inl rfl)
  rcases hc with ⟨hd, hqa, hlg⟩
  simp only [List.nil_append] at hqa hlg
  rw [if_neg hfl] at hqa hlg
  exact ⟨hqa, rfl, rfl, by simpa using hlg, hd⟩

/-- Witness for `sendEmails_summary_synthesis` on a one-task queue whose send
fails. -/
theorem sendEmails_summary_synthesis_witness :
    (sendEmails (σ := Nat) false (fun _ => false)
      [⟨{ subject := "A" }, (fun n => n + 1), false⟩] 0).drained = true :=
  (sendEmails_summary_synthesis (σ := Nat) (fun _ => false)
    [⟨{ subject := "A" }, (fun n => n + 1), false⟩] 0
    (by decide) ⟨0, by decide, rfl⟩).2.2.2.2

/-- C5 counterexample: one ordinary task whose send fails.  The drain's log
has a second entry at index 1 — the synthesized summary task was attempted
in the same pass (and `INBOUND` is cleared at the end of `sendEmails`, so
nothing remains queued for the next iteration), refuting "queued for the
next iteration and not sent in the same pass". -/
theorem sendEmails_summary_same_pass_counterexample :
    (sendEmails (σ := Nat) false (fun _ => false)
        [⟨{ subject := "A" }, (fun n => n + 1), false⟩] 0).log =
      [⟨0, some false, false⟩, ⟨1, some false, false⟩]
    ∧ ((sendEmails (σ := Nat) false (fun _ => false)
        [⟨{ subject := "A" }, (fun n => n + 1), false⟩] 0).queueAfter.map
          (fun t => (t.email.subject, t.ignoreFailure))) =
      [("A", false), ("Emailversand fehlgeschlagen", true)] :=
  ⟨by decide, by decide⟩

/-! ### Announcements and threads: C3, C6 -/

theorem hasKey_applyAnnouncementsCommits (tasks : List AnnTask)
    (p : JsMap String Nat) (k : String) :
    (applyAnnouncementsCommits tasks p).hasKey k =
      (p.hasKey k || tasks.any (fun t => decide (t.commitId = k))) := by
  induction tasks generalizing p with
  | nil => simp [applyAnnouncementsCommits]
  | cons t ts ih =>
    have hstep : applyAnnouncementsCommits (t :: ts) p =
        applyAnnouncementsCommits ts (p.set t.commitId 1) := rfl
    rw [hstep, ih, JsMap.hasKey_set]
    cases hpk : p.hasKey k <;> cases hd : decide (t.commitId = k) <;> simp [hpk, hd]

theorem buildEmailsForAnnouncements_after_commit (cfg : EpConfig)
    (announcements : List Announcement) (processed : JsMap String Nat) :
    buildEmailsForAnnouncements cfg announcements
      (applyAnnouncementsCommits (buildEmailsForAnnouncements cfg announcements processed)
        processed) = [] := by
  set tasks := buildEmailsForAnnouncements cfg announcements processed with htasks
  unfold buildEmailsForAnnouncements
  have hfil : announcements.filter
      (fun a => ! (applyAnnouncementsCommits tasks processed).hasKey a.id) = [] := by
    rw [List.filter_eq_nil_iff]
    intro a ha
    rw [hasKey_applyAnnouncementsCommits]
    cases hpk : processed.hasKey a.id with
    | true => simp [hpk]
    | false =>
      have hmem : a ∈ announcements.filter (fun a => ! processed.hasKey a.id) :=
        List.mem_filter.mpr ⟨ha, by simp [hpk]⟩
      have hany : tasks.any (fun t => decide (t.commitId = a.id)) = true := by
        rw [htasks]
        unfold buildEmailsForAnnouncements
        rw [List.any_eq_true]
        exact ⟨_, List.mem_map_of_mem _ (List.mem_reverse.mpr hmem), by simp⟩
      simp [hany]
  rw [hfil]
  rfl

theorem memNested_set_empty (m : JsMap String (JsMap Nat Nat)) (tid : String)
    (h : m.hasKey tid = false) (tid' : String) (i' : Nat) :
    memNested (m.set tid JsMap.empty) tid' i' = memNested m tid' i' := by
  unfold memNested
  by_cases he : tid = tid'
  · subst he
    rw [JsMap.lookup_set_self]
    have : m.lookup tid = none := by
      unfold JsMap.hasKey at h
      cases hl : m.lookup tid
      · rfl
      · rw [hl] at h
        simp at h
    rw [this]
    simp
  · rw [JsMap.lookup_set_ne _ _ _ _ he]

theorem memNested_setNested_mono (m : JsMap String (JsMap Nat Nat)) (tid : String) (i : Nat)
    (tid' : String) (i' : Nat) (h : memNested m tid' i' = true) :
    memNested (m.set tid (((m.lookup tid).getD JsMap.empty).set i 1)) tid' i' = true := by
  unfold memNested at h ⊢
  by_cases he : tid = tid'
  · subst he
    rw [JsMap.lookup_set_self]
    simp only [Option.getD_some]
    rw [JsMap.hasKey_set]
    simp [h]
  · rw [JsMap.lookup_set_ne _ _ _ _ he]
    exact h

theorem memNested_setNested_self (m : JsMap String (JsMap Nat Nat)) (tid : String) (i : Nat) :
    memNested (m.set tid (((m.lookup tid).getD JsMap.empty).set i 1)) tid i = true := by
  unfold memNested
  rw [JsMap.lookup_set_self]
  simp only [Option.getD_some]
  rw [JsMap.hasKey_set]
  simp

theorem memNested_applyThreadsCommits_mono (tasks : List ThreadTask)
    (m : JsMap String (JsMap Nat Nat)) (tid : String) (i : Nat)
    (h : memNested m tid i = true) :
    memNested (applyThreadsCommits tasks m) tid i = true := by
  induction tasks generalizing m with
  | nil => exact h
  | cons t ts ih =>
    have hstep : applyThreadsCommits (t :: ts) m =
        applyThreadsCommits ts (m.set t.threadId (((m.lookup t.threadId).getD
          JsMap.empty).set t.pos 1)) := rfl
    rw [hstep]
    exact ih _ (memNested_setNested_mono m t.threadId t.pos tid i h)

theorem memNested_applyThreadsCommits_self (tasks : List ThreadTask)
    (m : JsMap String (JsMap Nat Nat)) (t : ThreadTask) (ht : t ∈ tasks) :
    memNested (applyThreadsCommits tasks m) t.threadId t.pos = true := by
  induction tasks generalizing m with
  | nil => cases ht
  | cons t' ts ih =>
    have hstep : applyThreadsCommits (t' :: ts) m =
        applyThreadsCommits ts (m.set t'.threadId (((m.lookup t'.threadId).getD
          JsMap.empty).set t'.pos 1)) := rfl
    rw [hstep]
    rcases List.mem_cons.mp ht with h | h
    · subst h
      exact memNested_applyThreadsCommits_mono ts _ _ _
        (memNested_setNested_self m t.threadId t.pos)
    · exact ih _ h

theorem threadTasksPure_congr (cfg : EpConfig) (teacher : Teacher) (threads : List Thread)
    (p q : JsMap String (JsMap Nat Nat))
    (h : ∀ tid i, memNested p tid i = memNested q tid i) :
    threads.flatMap (fun thread => thread.messages.enum.filterMap (fun im =>
      if memNested p thread.id im.1 then none
      else some (mkThreadTask cfg teacher thread im.1 im.2)))
    = threads.flatMap (fun thread => thread.messages.enum.filterMap (fun im =>
      if memNested q thread.id im.1 then none
      else some (mkThreadTask cfg teacher thread im.1 im.2))) := by
  simp only [h]

theorem buildEmailsForThreads_inner (cfg : EpConfig) (teacher : Teacher) :
    ∀ (threads : List Thread) (tasks0 : List ThreadTask) (p : JsMap String (JsMap Nat Nat)),
    (threads.foldl (fun acc thread =>
      let q := if acc.2.hasKey thread.id then acc.2 else acc.2.set thread.id JsMap.empty
      let inner := (q.lookup thread.id).getD JsMap.empty
      let newTasks := thread.messages.enum.filterMap (fun im =>
        if inner.hasKey im.1 then none
        else some (mkThreadTask cfg teacher thread im.1 im.2))
      (acc.1 ++ newTasks, q)) (tasks0, p)).1
      = tasks0 ++ threads.flatMap (fun thread =>
          thread.messages.enum.filterMap (fun im =>
            if memNested p thread.id im.1 then none
            else some (mkThreadTask cfg teacher thread im.1 im.2)))
    ∧ ∀ tid i,
      memNested (threads.foldl (fun acc thread =>
        let q := if acc.2.hasKey thread.id then acc.2 else acc.2.set thread.id JsMap.empty
        let inner := (q.lookup thread.id).getD JsMap.empty
        let newTasks := thread.messages.enum.filterMap (fun im =>
          if inner.hasKey im.1 then none
          else some (mkThreadTask cfg teacher thread im.1 im.2))
        (acc.1 ++ newTasks, q)) (tasks0, p)).2 tid i = memNested p tid i := by
  intro threads
  induction threads with
  | nil =>
    intro tasks0 p
    exact ⟨by simp, fun tid i => rfl⟩
  | cons th ths ih =>
    intro tasks0 p
    rw [List.foldl_cons]
    set q := if p.hasKey th.id then p else p.set th.id JsMap.empty with hqdef
    have hqmem : ∀ tid i, memNested q tid i = memNested p tid i := by
      intro tid i
      rw [hqdef]
      by_cases hk : p.hasKey th.id
      · rw [if_pos hk]
      · rw [if_neg hk]
        exact memNested_set_empty p th.id (by simpa using hk) tid i
    have hinner : ((q.lookup th.id).getD JsMap.empty).hasKey = memNested q th.id := rfl
    obtain ⟨ih1, ih2⟩ := ih (tasks0 ++ th.messages.enum.filterMap (fun im =>
      if ((q.lookup th.id).getD JsMap.empty).hasKey im.1 then none
      else some (mkThreadTask cfg teacher th im.1 im.2))) q
    constructor
    · rw [ih1]
      rw [threadTasksPure_congr cfg teacher ths q p (fun tid i => hqmem tid i)]
      have hcond : ∀ im : Nat × ThreadMsg,
          (if ((q.lookup th.id).getD JsMap.empty).hasKey im.1 then none
            else some (mkThreadTask cfg teacher th im.1 im.2))
          = (if memNested p th.id im.1 then none
            else some (mkThreadTask cfg teacher th im.1 im.2)) := by
        intro im
        have : ((q.lookup th.id).getD JsMap.empty).hasKey im.1 = memNested p th.id im.1 := by
          rw [hinner]
          exact hqmem th.id im.1
        rw [this]
      rw [List.filterMap_congr (fun im _ => hcond im)]
      simp [List.flatMap_cons, List.append_assoc]
    · intro tid i
      rw [ih2 tid i]
      exact hqmem tid i

theorem buildEmailsForThreads_spec (cfg : EpConfig) (teachers : List Teacher)
    (p : JsMap String (JsMap Nat Nat)) :
    (buildEmailsForThreads cfg teachers p).1 = threadTasksPure cfg teachers p
    ∧ ∀ tid i, memNested (buildEmailsForThreads cfg teachers p).2 tid i = memNested p tid i := by
  unfold buildEmailsForThreads threadTasksPure
  suffices h : ∀ (ts : List Teacher) (tasks0 : List ThreadTask)
      (p : JsMap String (JsMap Nat Nat)),
      (ts.foldl (fun acc teacher =>
        teacher.threads.foldl (fun acc thread =>
          let q := if acc.2.hasKey thread.id then acc.2 else acc.2.set thread.id JsMap.empty
          let inner := (q.lookup thread.id).getD JsMap.empty
          let newTasks := thread.messages.enum.filterMap (fun im =>
            if inner.hasKey im.1 then none
            else some (mkThreadTask cfg teacher thread im.1 im.2))
          (acc.1 ++ newTasks, q)) acc) (tasks0, p)).1
        = tasks0 ++ ts.flatMap (fun teacher => teacher.threads.flatMap (fun thread =>
            thread.messages.enum.filterMap (fun im =>
              if memNested p thread.id im.1 then none
              else some (mkThreadTask cfg teacher thread im.1 im.2))))
      ∧ ∀ tid i,
        memNested (ts.foldl (fun acc teacher =>
          teacher.threads.foldl (fun acc thread =>
            let q := if acc.2.hasKey thread.id then acc.2 else acc.2.set thread.id JsMap.empty
            let inner := (q.lookup thread.id).getD JsMap.empty
            let newTasks := thread.messages.enum.filterMap (fun im =>
              if inner.hasKey im.1 then none
              else some (mkThreadTask cfg teacher thread im.1 im.2))
            (acc.1 ++ newTasks, q)) acc) (tasks0, p)).2 tid i = memNested p tid i by
    have h0 := h teachers [] p
    exact ⟨by simpa using h0.1, h0.2⟩
  intro ts
  induction ts with
  | nil =>
    intro tasks0 p
    exact ⟨by simp, fun tid i => rfl⟩
  | cons teacher rest ih =>
    intro tasks0 p
    rw [List.foldl_cons]
    obtain ⟨hin1, hin2⟩ := buildEmailsForThreads_inner cfg teacher teacher.threads tasks0 p
    have hpair : (teacher.threads.foldl (fun acc thread =>
        let q := if acc.2.hasKey thread.id then acc.2 else acc.2.set thread.id JsMap.empty
        let inner := (q.lookup thread.id).getD JsMap.empty
        let newTasks := thread.messages.enum.filterMap (fun im =>
          if inner.hasKey im.1 then none
          else some (mkThreadTask cfg teacher thread im.1 im.2))
        (acc.1 ++ newTasks, q)) (tasks0, p))
        = ((teacher.threads.foldl (fun acc thread =>
          let q := if acc.2.hasKey thread.id then acc.2 else acc.2.set thread.id JsMap.empty
          let inner := (q.lookup thread.id).getD JsMap.empty
          let newTasks := thread.messages.enum.filterMap (fun im =>
            if inner.hasKey im.1 then none
            else some (mkThreadTask cfg teacher thread im.1 im.2))
          (acc.1 ++ newTasks, q)) (tasks0, p)).1,
          (teacher.threads.foldl (fun acc thread =>
          let q := if acc.2.hasKey thread.id then acc.2 else acc.2.set thread.id JsMap.empty
          let inner := (q.lookup thread.id).getD JsMap.empty
          let newTasks := thread.messages.enum.filterMap (fun im =>
            if inner.hasKey im.1 then none
            else some (mkThreadTask cfg teacher thread im.1 im.2))
          (acc.1 ++ newTasks, q)) (tasks0, p)).2) := rfl
    rw [hpair]
    obtain ⟨ih1, ih2⟩ := ih ((teacher.threads.foldl (fun acc thread =>
      let q := if acc.2.hasKey thread.id then acc.2 else acc.2.set thread.id JsMap.empty
      let inner := (q.lookup thread.id).getD JsMap.empty
      let newTasks := thread.messages.enum.filterMap (fun im =>
        if inner.hasKey im.1 then none
        else some (mkThreadTask cfg teacher thread im.1 im.2))
      (acc.1 ++ newTasks, q)) (tasks0, p)).1)
      ((teacher.threads.foldl (fun acc thread =>
      let q := if acc.2.hasKey thread.id then acc.2 else acc.2.set thread.id JsMap.empty
      let inner := (q.lookup thread.id).getD JsMap.empty
      let newTasks := thread.messages.enum.filterMap (fun im =>
        if inner.hasKey im.1 then none
        else some (mkThreadTask cfg teacher thread im.1 im.2))
      (acc.1 ++ newTasks, q)) (tasks0, p)).2)
    constructor
    · rw [ih1, hin1]
      have hcongr := threadTasksPure_congr cfg teacher teacher.threads p p (fun _ _ => rfl)
      have : ∀ teacher' : Teacher,
          teacher'.threads.flatMap (fun thread => thread.messages.enum.filterMap (fun im =>
            if memNested ((teacher.threads.foldl (fun acc thread =>
              let q := if acc.2.hasKey thread.id then acc.2
                else acc.2.set thread.id JsMap.empty
              let inner := (q.lookup thread.id).getD JsMap.empty
              let newTasks := thread.messages.enum.filterMap (fun im =>
                if inner.hasKey im.1 then none
                else some (mkThreadTask cfg teacher thread im.1 im.2))
              (acc.1 ++ newTasks, q)) (tasks0, p)).2) thread.id im.1 then none
            else some (mkThreadTask cfg teacher' thread im.1 im.2)))
          = teacher'.threads.flatMap (fun thread => thread.messages.enum.filterMap (fun im =>
            if memNested p thread.id im.1 then none
            else some (mkThreadTask cfg teacher' thread im.1 im.2))) := by
        intro teacher'
        exact threadTasksPure_congr cfg teacher' teacher'.threads _ p (fun tid i => hin2 tid i)
      simp only [this]
      simp [List.flatMap_cons, List.append_assoc]
    · intro tid i
      rw [ih2 tid i]
      exact hin2 tid i

theorem threadTasksPure_after_commit (cfg : EpConfig) (teachers : List Teacher)
    (pc : JsMap String (JsMap Nat Nat))
    (hpc : ∀ teacher ∈ teachers, ∀ thread ∈ teacher.threads,
      ∀ im ∈ thread.messages.enum, memNested pc thread.id im.1 = true) :
    threadTasksPure cfg teachers pc = [] := by
  unfold threadTasksPure
  rw [List.flatMap_eq_nil_iff]
  intro teacher hT
  rw [List.flatMap_eq_nil_iff]
  intro thread hth
  rw [List.filterMap_eq_nil_iff]
  intro im him
  rw [if_pos (hpc teacher hT thread hth im him)]

/-- C3: no-duplicate-after-commit for the two cited categories.  For any
input and ledger slice: after running the announcements diff and committing
every produced task, re-running the diff yields zero tasks; likewise for the
teacher-threads diff (whose first run may insert empty per-thread maps). -/
theorem no_duplicate_after_commit :
    (∀ (cfg : EpConfig) (announcements : List Announcement) (processed : JsMap String Nat),
      buildEmailsForAnnouncements cfg announcements
        (applyAnnouncementsCommits (buildEmailsForAnnouncements cfg announcements processed)
          processed) = [])
    ∧ (∀ (cfg : EpConfig) (teachers : List Teacher)
        (processed : JsMap String (JsMap Nat Nat)),
      (buildEmailsForThreads cfg teachers
        (applyThreadsCommits (buildEmailsForThreads cfg teachers processed).1
          (buildEmailsForThreads cfg teachers processed).2)).1 = []) := by
  constructor
  · exact buildEmailsForAnnouncements_after_commit
  · intro cfg teachers p
    set tasks1 := (buildEmailsForThreads cfg teachers p).1 with htasks1
    set p1 := (buildEmailsForThreads cfg teachers p).2 with hp1
    set pc := applyThreadsCommits tasks1 p1 with hpc
    obtain ⟨hfst2, _⟩ := buildEmailsForThreads_spec cfg teachers pc
    rw [hfst2]
    apply threadTasksPure_after_commit
    intro teacher hT thread hth im him
    by_cases hmp : memNested p thread.id im.1 = true
    · have h1 : memNested p1 thread.id im.1 = true := by
        rw [hp1, (buildEmailsForThreads_spec cfg teachers p).2 thread.id im.1]
        exact hmp
      exact memNested_applyThreadsCommits_mono tasks1 p1 thread.id im.1 h1
    · have htask : mkThreadTask cfg teacher thread im.1 im.2 ∈ tasks1 := by
        rw [htasks1, (buildEmailsForThreads_spec cfg teachers p).1]
        unfold threadTasksPure
        refine List.mem_flatMap.mpr ⟨teacher, hT, ?_⟩
        refine List.mem_flatMap.mpr ⟨thread, hth, ?_⟩
        refine List.mem_filterMap.mpr ⟨im, him, ?_⟩
        rw [if_neg hmp]
      have := memNested_applyThreadsCommits_self tasks1 p1
        (mkThreadTask cfg teacher thread im.1 im.2) htask
      simpa using this

theorem pairwise_fst_lt_enumFrom {α : Type} (l : List α) :
    ∀ k, List.Pairwise (fun a b : Nat × α => a.1 < b.1) (List.enumFrom k l) := by
  induction l with
  | nil => intro k; simp
  | cons x xs ih =>
    intro k
    rw [List.enumFrom_cons]
    refine List.Pairwise.cons ?_ (ih (k + 1))
    intro b hb
    obtain ⟨i, y⟩ := b
    have := List.mem_enumFrom hb
    omega

theorem pairwise_fst_lt_enum {α : Type} (l : List α) :
    List.Pairwise (fun a b : Nat × α => a.1 < b.1) l.enum :=
  pairwise_fst_lt_enumFrom l 0

theorem flatMap_filter_eq_nil {α β : Type} (P : β → Bool) (g : α → List β) (l : List α)
    (h : ∀ x ∈ l, (g x).filter P = []) : (l.flatMap g).filter P = [] := by
  induction l with
  | nil => rfl
  | cons x xs ih =>
    rw [List.flatMap_cons, List.filter_append, h x (List.mem_cons_self x xs),
      ih (fun y hy => h y (List.mem_cons_of_mem x hy))]
    rfl

theorem flatMap_filter_single {α β : Type} (P : β → Bool) (g : α → List β) (l : List α)
    (a : α) (hnd : l.Nodup) (ha : a ∈ l)
    (hother : ∀ x ∈ l, x ≠ a → (g x).filter P = []) :
    (l.flatMap g).filter P = (g a).filter P := by
  induction l with
  | nil => cases ha
  | cons x xs ih =>
    rw [List.flatMap_cons, List.filter_append]
    rcases List.mem_cons.mp ha with h | h
    · subst h
      have hrest : (xs.flatMap g).filter P = [] := by
        refine flatMap_filter_eq_nil P g xs (fun y hy => ?_)
        refine hother y (List.mem_cons_of_mem a hy) (fun hya => ?_)
        exact (List.nodup_cons.mp hnd).1 (hya ▸ hy)
      rw [hrest, List.append_nil]
    · have hx : (g x).filter P = [] := by
        refine hother x (List.mem_cons_self x xs) (fun hxa => ?_)
        subst hxa
        exact (List.nodup_cons.mp hnd).1 h
      rw [hx, List.nil_append]
      exact ih (List.nodup_cons.mp hnd).2 h
        (fun y hy hne => hother y (List.mem_cons_of_mem x hy) hne)

theorem mem_threadBlock {cfg : EpConfig} {teacher : Teacher} {thread : Thread}
    {p : JsMap String (JsMap Nat Nat)} {τ : ThreadTask}
    (h : τ ∈ thread.messages.enum.filterMap (fun im =>
      if memNested p thread.id im.1 then none
      else some (mkThreadTask cfg teacher thread im.1 im.2))) :
    ∃ im ∈ thread.messages.enum, τ = mkThreadTask cfg teacher thread im.1 im.2 := by
  obtain ⟨im, him, hf⟩ := List.mem_filterMap.mp h
  by_cases hc : memNested p thread.id im.1 = true
  · rw [if_pos hc] at hf
    cases hf
  · rw [if_neg hc] at hf
    exact ⟨im, him, (Option.some.inj hf).symm⟩

theorem mem_threadTasksPure {cfg : EpConfig} {teachers : List Teacher}
    {p : JsMap String (JsMap Nat Nat)} {τ : ThreadTask}
    (h : τ ∈ threadTasksPure cfg teachers p) :
    ∃ teacher ∈ teachers, ∃ thread ∈ teacher.threads, ∃ im ∈ thread.messages.enum,
      τ = mkThreadTask cfg teacher thread im.1 im.2 := by
  unfold threadTasksPure at h
  obtain ⟨teacher, hT, h2⟩ := List.mem_flatMap.mp h
  obtain ⟨thread, hth, h3⟩ := List.mem_flatMap.mp h2
  obtain ⟨im, him, hτ⟩ := mem_threadBlock h3
  exact ⟨teacher, hT, thread, hth, im, him, hτ⟩

/-- C6: thread ordering.  For any teacher and thread of the input (teacher
ids and per-teacher thread ids being distinct, as scraped), the tasks the
threads diff emits for that thread appear in strictly increasing message
position order, and every emitted task at a position `> 0` carries a
references header equal to the synthetic message id of the previous position
of the same thread. -/
theorem buildEmailsForThreads_ordering (cfg : EpConfig) (teachers : List Teacher)
    (processed : JsMap String (JsMap Nat Nat)) (teacher : Teacher) (thread : Thread)
    (hteach : (teachers.map Teacher.id).Nodup)
    (hthreads : ∀ t ∈ teachers, (t.threads.map Thread.id).Nodup)
    (hT : teacher ∈ teachers) (hth : thread ∈ teacher.threads) :
    List.Pairwise (fun a b => a.pos < b.pos)
      ((buildEmailsForThreads cfg teachers processed).1.filter
        (fun τ => decide (τ.teacherId = teacher.id ∧ τ.threadId = thread.id)))
    ∧ ∀ τ ∈ (buildEmailsForThreads cfg teachers processed).1,
        τ.teacherId = teacher.id → τ.threadId = thread.id → 0 < τ.pos →
        τ.email.references = [buildMessageId cfg.adminAddress
          ("thread-" ++ teacher.id ++ "-" ++ thread.id ++ "-" ++ toString (τ.pos - 1))] := by
  rw [(buildEmailsForThreads_spec cfg teachers processed).1]
  constructor
  · unfold threadTasksPure
    rw [flatMap_filter_single _ _ teachers teacher (List.Nodup.of_map _ hteach) hT ?hother]
    case hother =>
      intro x hx hne
      rw [List.filter_eq_nil_iff]
      intro τ hτ
      obtain ⟨th', hth', h3⟩ := List.mem_flatMap.mp hτ
      obtain ⟨im, him, hτeq⟩ := mem_threadBlock h3
      subst hτeq
      have hid : x.id ≠ teacher.id := by
        intro hideq
        exact hne (List.inj_on_of_nodup_map hteach hx hT hideq)
      simp [mkThreadTask, hid]
    rw [flatMap_filter_single _ _ teacher.threads thread
      (List.Nodup.of_map _ (hthreads teacher hT)) hth ?hother2]
    case hother2 =>
      intro th' hth' hne
      rw [List.filter_eq_nil_iff]
      intro τ hτ
      obtain ⟨im, _, hτeq⟩ := mem_threadBlock hτ
      subst hτeq
      have hid : th'.id ≠ thread.id := by
        intro hideq
        exact hne (List.inj_on_of_nodup_map (hthreads teacher hT) hth' hth hideq)
      simp [mkThreadTask, hid]
    have hself : (thread.messages.enum.filterMap (fun im =>
        if memNested processed thread.id im.1 then none
        else some (mkThreadTask cfg teacher thread im.1 im.2))).filter
        (fun τ => decide (τ.teacherId = teacher.id ∧ τ.threadId = thread.id))
        = thread.messages.enum.filterMap (fun im =>
          if memNested processed thread.id im.1 then none
          else some (mkThreadTask cfg teacher thread im.1 im.2)) := by
      rw [List.filter_eq_self]
      intro τ hτ
      obtain ⟨im, _, hτeq⟩ := mem_threadBlock hτ
      subst hτeq
      simp [mkThreadTask]
    rw [hself]
    refine List.Pairwise.filterMap _ ?_ (pairwise_fst_lt_enum thread.messages)
    intro a a' hlt b hb b' hb'
    by_cases hc : memNested processed thread.id a.1 = true
    · rw [if_pos hc] at hb
      cases hb
    · by_cases hc' : memNested processed thread.id a'.1 = true
      · rw [if_pos hc'] at hb'
        cases hb'
      · rw [if_neg hc] at hb
        rw [if_neg hc'] at hb'
        cases hb
        cases hb'
        exact hlt
  · intro τ hτ hteq htheq hpos
    obtain ⟨teacher', _, thread', _, im, _, hτeq⟩ := mem_threadTasksPure hτ
    subst hτeq
    have h1 : teacher'.id = teacher.id := hteq
    have h2 : thread'.id = thread.id := htheq
    have hp : (mkThreadTask cfg teacher' thread' im.1 im.2).pos = im.1 := rfl
    rw [hp] at hpos
    show (if 0 < im.1 then _ else _) = _
    rw [if_pos hpos, h1, h2, hp]

/-- Witness for `buildEmailsForThreads_ordering` on one teacher with one
two-message thread and an empty slice. -/
theorem buildEmailsForThreads_ordering_witness :
    List.Pairwise (fun a b => a.pos < b.pos)
      ((buildEmailsForThreads { adminAddress := "a@d" }
        [⟨"9", [⟨"7", "Subj", "TN", [⟨"TN", "m0"⟩, ⟨"Eltern", "m1"⟩]⟩]⟩] ⟨[]⟩).1.filter
        (fun τ => decide (τ.teacherId = (⟨"9",
            [⟨"7", "Subj", "TN", [⟨"TN", "m0"⟩, ⟨"Eltern", "m1"⟩]⟩]⟩ : Teacher).id
          ∧ τ.threadId = (⟨"7", "Subj", "TN",
            [⟨"TN", "m0"⟩, ⟨"Eltern", "m1"⟩]⟩ : Thread).id))) :=
  (buildEmailsForThreads_ordering { adminAddress := "a@d" }
    [⟨"9", [⟨"7", "Subj", "TN", [⟨"TN", "m0"⟩, ⟨"Eltern", "m1"⟩]⟩]⟩] ⟨[]⟩
    ⟨"9", [⟨"7", "Subj", "TN", [⟨"TN", "m0"⟩, ⟨"Eltern", "m1"⟩]⟩]⟩
    ⟨"7", "Subj", "TN", [⟨"TN", "m0"⟩, ⟨"Eltern", "m1"⟩]⟩
    (by decide) (by decide) (by decide) (by decide)).1

/-! ### Inquiries: C2 -/

/-- C2 (code bug, evaluated at the failing input): `buildEmailsForInquiries`
replaces the ledger slice by `prunedHashes`, in which every currently
visible hash — including the hash of the brand-new, not-yet-sent message —
is already mapped to `1`.  On inquiries `[{subject S, one message T at
100}]` against the empty slice, the first diff emits one task but already
marks its hash seen, a second diff on the unchanged input emits zero tasks,
and the task's `ok` commit is a no-op on the replaced slice — so a failed
send is dropped forever, contradicting the claimed purity/idempotence and
the spec's core ledger invariant. -/
theorem buildEmailsForInquiries_premarks_ledger :
    ((buildEmailsForInquiries {} (fun s => s) [⟨"S", [⟨"T", 100⟩]⟩] JsMap.empty).1.length = 1)
    ∧ ((buildEmailsForInquiries {} (fun s => s) [⟨"S", [⟨"T", 100⟩]⟩] JsMap.empty).2.lookup
        "S\n100\nT" = some 1)
    ∧ ((buildEmailsForInquiries {} (fun s => s) [⟨"S", [⟨"T", 100⟩]⟩]
        (buildEmailsForInquiries {} (fun s => s) [⟨"S", [⟨"T", 100⟩]⟩] JsMap.empty).2).1 = [])
    ∧ ((buildEmailsForInquiries {} (fun s => s) [⟨"S", [⟨"T", 100⟩]⟩] JsMap.empty).1.map
        (fun t => applyInquiryCommit
          (buildEmailsForInquiries {} (fun s => s) [⟨"S", [⟨"T", 100⟩]⟩] JsMap.empty).2 t)
        = [(buildEmailsForInquiries {} (fun s => s) [⟨"S", [⟨"T", 100⟩]⟩] JsMap.empty).2]) :=
  ⟨by decide, by decide, by decide, by decide⟩

/-! ### Substitutions: C7 -/

/-- C7: substitution all-or-nothing.  For two valid (non-expired, non-empty)
day-units of which exactly the first has a hash not in the seen-set, exactly
one email task is emitted; its body contains both units, the changed one
wrapped in the updated-marker span and the unchanged one bare — and the
slice is untouched by the diff in this branch.  If neither unit's hash
changed, no substitution task is emitted. -/
theorem readSubstitutions_all_or_nothing (md5f : String → String)
    (heading lastUpdated : String) (u1 u2 : SubUnit) (subs : JsMap String Nat)
    (hv1 : u1.expired = false) (he1 : u1.unitEmpty = false)
    (hv2 : u2.expired = false) (he2 : u2.unitEmpty = false) :
    (subs.hasKey (md5f u1.html) = false → subs.hasKey (md5f u2.html) = true →
      (readSubstitutions md5f heading lastUpdated [u1, u2] subs).task =
        some { fromName := "Vertretungsplan", subject := "Vertretungsplan",
               html := substitutionsHtmlHead
                 ++ ((heading ++ markUpdated u1.html ++ u2.html) ++ lastUpdated)
                 ++ "</body></html>" }
      ∧ (readSubstitutions md5f heading lastUpdated [u1, u2] subs).sliceAfter = subs)
    ∧ (subs.hasKey (md5f u1.html) = true → subs.hasKey (md5f u2.html) = true →
      (readSubstitutions md5f heading lastUpdated [u1, u2] subs).task = none) := by
  constructor
  · intro h1 h2
    unfold readSubstitutions
    simp [hv1, he1, hv2, he2, h1, h2]
  · intro h1 h2
    unfold readSubstitutions
    simp [hv1, he1, hv2, he2, h1, h2]

/-- Witness for `readSubstitutions_all_or_nothing` on two concrete units
with the identity hash. -/
theorem readSubstitutions_all_or_nothing_witness :
    (readSubstitutions (fun s => s) "H" "F"
      [⟨"U1", false, false⟩, ⟨"U2", false, false⟩] ⟨[("U1", 1), ("U2", 1)]⟩).task = none :=
  (readSubstitutions_all_or_nothing (fun s => s) "H" "F"
    ⟨"U1", false, false⟩ ⟨"U2", false, false⟩ ⟨[("U1", 1), ("U2", 1)]⟩
    rfl rfl rfl rfl).2 (by decide) (by decide)

/-! ### Calendar events: C4 -/

theorem strContains_append_right {a sub : String} (b : String) (h : strContains a sub) :
    strContains (a ++ b) sub := by
  obtain ⟨l, r, hl⟩ := h
  exact ⟨l, r ++ b, by rw [hl, String.append_assoc, String.append_assoc]⟩

theorem strContains_suffix (a x : String) : strContains (a ++ x) x :=
  ⟨a, "", by rw [String.append_empty]⟩

theorem strContains_foldl_mono {sub : String} (l : List EvStatus) :
    ∀ init : String, strContains init sub →
      strContains (l.foldl (fun acc e => acc ++ eventRow e) init) sub := by
  induction l with
  | nil => intro init h; exact h
  | cons x t ih =>
    intro init h
    rw [List.foldl_cons]
    exact ih _ (strContains_append_right _ h)

theorem strContains_foldl_row (e : EvStatus) (l : List EvStatus) :
    ∀ init : String, e ∈ l →
      strContains (l.foldl (fun acc x => acc ++ eventRow x) init) (eventRow e) := by
  induction l with
  | nil => intro init h; cases h
  | cons x t ih =>
    intro init h
    rw [List.foldl_cons]
    rcases List.mem_cons.mp h with he | ht
    · subst he
      exact strContains_foldl_mono t _ (strContains_suffix init _)
    · exact ih _ ht

theorem applyEventsOk_untouched (K : String) :
    ∀ (sl : List EvStatus) (prev : JsMap String Nat),
      (∀ e ∈ sl, e.html = K → e.status = 0) →
      (applyEventsOk sl prev).lookup K = prev.lookup K := by
  intro sl
  induction sl with
  | nil => intro prev _; rfl
  | cons x t ih =>
    intro prev h
    have hstep : applyEventsOk (x :: t) prev =
        applyEventsOk t (if x.status = 1 then prev.set x.html x.ts
          else if x.status = -1 then prev.erase x.html else prev) := rfl
    rw [hstep, ih _ (fun e he hh => h e (List.mem_cons_of_mem _ he) hh)]
    by_cases hK : x.html = K
    · have h0 : x.status = 0 := h x (List.mem_cons_self x t) hK
      rw [h0]
      simp
    · by_cases h1 : x.status = 1
      · rw [if_pos h1, JsMap.lookup_set_ne _ _ _ _ hK]
      · rw [if_neg h1]
        by_cases h2 : x.status = -1
        · rw [if_pos h2, JsMap.lookup_erase, if_neg hK]
        · rw [if_neg h2]

theorem applyEventsOk_erased_aux (H : String) :
    ∀ (sl : List EvStatus) (prev : JsMap String Nat),
      (∀ e ∈ sl, e.html = H → e.status = -1) →
      prev.lookup H = none →
      (applyEventsOk sl prev).lookup H = none := by
  intro sl
  induction sl with
  | nil => intro prev _ hn; exact hn
  | cons x t ih =>
    intro prev h hn
    have hstep : applyEventsOk (x :: t) prev =
        applyEventsOk t (if x.status = 1 then prev.set x.html x.ts
          else if x.status = -1 then prev.erase x.html else prev) := rfl
    rw [hstep]
    refine ih _ (fun e he hh => h e (List.mem_cons_of_mem _ he) hh) ?_
    by_cases hK : x.html = H
    · have hm1 : x.status = -1 := h x (List.mem_cons_self x t) hK
      rw [hm1, if_neg (by decide : ¬ ((-1 : Int) = 1)), if_pos rfl,
        JsMap.lookup_erase, if_pos hK]
    · by_cases h1 : x.status = 1
      · rw [if_pos h1, JsMap.lookup_set_ne _ _ _ _ hK]; exact hn
      · rw [if_neg h1]
        by_cases h2 : x.status = -1
        · rw [if_pos h2, JsMap.lookup_erase, if_neg hK]; exact hn
        · rw [if_neg h2]; exact hn

theorem applyEventsOk_erased (H : String) :
    ∀ (sl : List EvStatus) (prev : JsMap String Nat),
      (∀ e ∈ sl, e.html = H → e.status = -1) →
      (∃ e ∈ sl, e.html = H) →
      (applyEventsOk sl prev).lookup H = none := by
  intro sl
  induction sl with
  | nil =>
    intro prev _ hex
    obtain ⟨e, he, _⟩ := hex
    cases he
  | cons x t ih =>
    intro prev hall hex
    have hstep : applyEventsOk (x :: t) prev =
        applyEventsOk t (if x.status = 1 then prev.set x.html x.ts
          else if x.status = -1 then prev.erase x.html else prev) := rfl
    rw [hstep]
    by_cases hK : x.html = H
    · have hm1 : x.status = -1 := hall x (List.mem_cons_self x t) hK
      refine applyEventsOk_erased_aux H t _
        (fun e he hh => hall e (List.mem_cons_of_mem _ he) hh) ?_
      rw [hm1, if_neg (by decide : ¬ ((-1 : Int) = 1)), if_pos rfl,
        JsMap.lookup_erase, if_pos hK]
    · obtain ⟨e, he, hh⟩ := hex
      rcases List.mem_cons.mp he with rfl | het
      · exact absurd hh hK
      · exact ih _ (fun e2 he2 hh2 => hall e2 (List.mem_cons_of_mem _ he2) hh2) ⟨e, het, hh⟩

theorem readEvents_eq (todayZeroTs lookaheadTs lookaheadDays : Nat)
    (prev : JsMap String Nat) (events : List EventItem) :
    readEvents todayZeroTs lookaheadTs lookaheadDays prev events =
      if ((evUpcoming todayZeroTs lookaheadTs prev events).filter
            (fun e => decide (e.status = 1))).length
          + (evRemoved todayZeroTs lookaheadTs prev events).length = 0 then
        { task := none, prunedPrev := evPruned todayZeroTs prev,
          statusList := evAll todayZeroTs lookaheadTs prev events }
      else
        { task := some
            { fromName := "Termine", subject := "Bevorstehende Termine",
              html := (evAll todayZeroTs lookaheadTs prev events).foldl
                (fun acc e => acc ++ eventRow e) (eventsHtmlHead lookaheadDays)
                ++ "</table></body></html>" },
          prunedPrev := evPruned todayZeroTs prev,
          statusList := evAll todayZeroTs lookaheadTs prev events } := rfl

/-- C4: event removal detection.  If the ledger holds `H1` at a still-upcoming
date `t0` and no fresh event inside the lookahead window carries the HTML
`H1`, then the diff emits a task whose body contains `H1`'s row rendered with
the removed marker, the task's commit deletes `H1` from the ledger, and any
other still-upcoming ledger entry that does appear among the fresh in-window
events keeps its value unchanged through the commit. -/
theorem readEvents_removal_detection (todayZeroTs lookaheadTs lookaheadDays : Nat)
    (prev : JsMap String Nat) (events : List EventItem) (H1 : String) (t0 : Nat)
    (hnd : prev.keys.Nodup)
    (hH1 : prev.lookup H1 = some t0)
    (hup : ¬ t0 < todayZeroTs)
    (hfresh : ∀ e ∈ events, todayZeroTs ≤ e.ts → e.ts ≤ lookaheadTs → e.html ≠ H1) :
    (∃ em, (readEvents todayZeroTs lookaheadTs lookaheadDays prev events).task = some em
        ∧ strContains em.html (statusToHtml (-1) ++ "</td>" ++ H1 ++ "</tr>"))
    ∧ (applyEventsOk
          (readEvents todayZeroTs lookaheadTs lookaheadDays prev events).statusList
          (readEvents todayZeroTs lookaheadTs lookaheadDays prev events).prunedPrev).lookup H1
        = none
    ∧ ∀ K tK, K ≠ H1 → prev.lookup K = some tK → ¬ tK < todayZeroTs →
        (∃ e ∈ events, (todayZeroTs ≤ e.ts ∧ e.ts ≤ lookaheadTs) ∧ e.html = K) →
        (applyEventsOk
            (readEvents todayZeroTs lookaheadTs lookaheadDays prev events).statusList
            (readEvents todayZeroTs lookaheadTs lookaheadDays prev events).prunedPrev).lookup K
          = some tK := by
  have hmem : (H1, t0) ∈ prev.entries := lookupEntries_mem hH1
  have hmemP : (H1, t0) ∈ (evPruned todayZeroTs prev).entries :=
    List.mem_filter.mpr ⟨hmem, decide_eq_true hup⟩
  have hnm : H1 ∉ (evUpcoming todayZeroTs lookaheadTs prev events).map (fun e => e.html) := by
    intro hc
    obtain ⟨e, he, hh⟩ := List.mem_map.mp hc
    obtain ⟨ev, hev, heq⟩ := List.mem_map.mp he
    obtain ⟨hevents, hwin⟩ := List.mem_filter.mp hev
    have hwin' := of_decide_eq_true hwin
    apply hfresh ev hevents hwin'.1 hwin'.2
    rw [← hh, ← heq]
  have hnotup : ((evUpcoming todayZeroTs lookaheadTs prev events).map
      (fun e => e.html)).contains H1 = false := by
    simp [hnm]
  have hr0 : EvStatus.mk t0 H1 (-1) ∈ evRemoved todayZeroTs lookaheadTs prev events := by
    refine List.mem_map.mpr ⟨(H1, t0), ?_, rfl⟩
    exact List.mem_filter.mpr ⟨hmemP, by rw [hnotup]; rfl⟩
  have hrAll : EvStatus.mk t0 H1 (-1) ∈ evAll todayZeroTs lookaheadTs prev events :=
    ((List.perm_insertionSort _ _).mem_iff).mpr (List.mem_append_right _ hr0)
  have hcond : ¬ (((evUpcoming todayZeroTs lookaheadTs prev events).filter
        (fun e => decide (e.status = 1))).length
      + (evRemoved todayZeroTs lookaheadTs prev events).length = 0) := by
    have h1 := List.length_pos_of_mem hr0
    omega
  have hout : readEvents todayZeroTs lookaheadTs lookaheadDays prev events =
      { task := some
          { fromName := "Termine", subject := "Bevorstehende Termine",
            html := (evAll todayZeroTs lookaheadTs prev events).foldl
              (fun acc e => acc ++ eventRow e) (eventsHtmlHead lookaheadDays)
              ++ "</table></body></html>" },
        prunedPrev := evPruned todayZeroTs prev,
        statusList := evAll todayZeroTs lookaheadTs prev events } := by
    rw [readEvents_eq, if_neg hcond]
  have hallH : ∀ e ∈ evAll todayZeroTs lookaheadTs prev events, e.html = H1 →
      e.status = -1 := by
    intro e he hh
    rcases List.mem_append.mp (((List.perm_insertionSort _ _).mem_iff).mp he) with hu | hr
    · exact absurd (List.mem_map.mpr ⟨e, hu, hh⟩) hnm
    · obtain ⟨p, hp, hpe⟩ := List.mem_map.mp hr
      rw [← hpe]
  refine ⟨⟨{ fromName := "Termine", subject := "Bevorstehende Termine",
             html := (evAll todayZeroTs lookaheadTs prev events).foldl
               (fun acc e => acc ++ eventRow e) (eventsHtmlHead lookaheadDays)
               ++ "</table></body></html>" }, by rw [hout], ?_⟩, ?_, ?_⟩
  · exact strContains_append_right _ (strContains_foldl_row _ _ _ hrAll)
  · rw [hout]
    exact applyEventsOk_erased H1 _ _ hallH ⟨_, hrAll, rfl⟩
  · intro K tK hKne hKlook hKts hKex
    have hKp : (evPruned todayZeroTs prev).lookup K = some tK :=
      lookupEntries_filter_of_nodup hnd _ hKlook (decide_eq_true hKts)
    have hKup : K ∈ (evUpcoming todayZeroTs lookaheadTs prev events).map
        (fun e => e.html) := by
      obtain ⟨ev, hev, hwin, hhtml⟩ := hKex
      refine List.mem_map.mpr ⟨EvStatus.mk ev.ts ev.html
        (if (evPruned todayZeroTs prev).hasKey ev.html then 0 else 1), ?_, hhtml⟩
      exact List.mem_map.mpr ⟨ev, List.mem_filter.mpr ⟨hev, decide_eq_true hwin⟩, rfl⟩
    have hKcont : ((evUpcoming todayZeroTs lookaheadTs prev events).map
        (fun e => e.html)).contains K = true := by
      simp [hKup]
    have hallK : ∀ e ∈ evAll todayZeroTs lookaheadTs prev events, e.html = K →
        e.status = 0 := by
      intro e he hh
      rcases List.mem_append.mp (((List.perm_insertionSort _ _).mem_iff).mp he) with hu | hr
      · obtain ⟨ev, hev, heq⟩ := List.mem_map.mp hu
        have hevK : ev.html = K := by rw [← heq] at hh; exact hh
        rw [← heq]
        simp [hevK, JsMap.hasKey, hKp]
      · obtain ⟨p, hp, hpe⟩ := List.mem_map.mp hr
        obtain ⟨hpmem, hpf⟩ := List.mem_filter.mp hp
        have hp1 : p.1 = K := by rw [← hpe] at hh; exact hh
        rw [hp1, hKcont] at hpf
        simp at hpf
    rw [hout]
    exact (applyEventsOk_untouched K _ _ hallK).trans hKp

/-- Witness for `readEvents_removal_detection`: ledger `\x7bH1: 12, K: 15\x7d`,
one fresh event `K` at 15, window `[10, 20]` — `H1`'s commit deletes it. -/
theorem readEvents_removal_detection_witness :
    (applyEventsOk (readEvents 10 20 14 ⟨[("H1", 12), ("K", 15)]⟩ [⟨15, "K"⟩]).statusList
      (readEvents 10 20 14 ⟨[("H1", 12), ("K", 15)]⟩ [⟨15, "K"⟩]).prunedPrev).lookup "H1"
      = none :=
  (readEvents_removal_detection 10 20 14 ⟨[("H1", 12), ("K", 15)]⟩ [⟨15, "K"⟩] "H1" 12
    (by decide) (by decide) (by decide) (by decide)).2.1

/-! ### Reverse channel: C8 -/

/-- C8: reverse-channel authorization.  With a configured forwarding address
and at least one recipient matching the forwarding pattern: an unauthorized
sender yields exactly one admin alert, no forwarding entry, and the message
flagged processed; conversely a forwarding entry is only ever produced when
the first `From:` address, lowercased, is in the allow-list. -/
theorem processNewEmail_authorization (cfg : IncomingConfig) (msg : InboundEmail)
    (fwd : String) (hfwd : cfg.forwardingAddress = some fwd)
    (hrecip : ((msg.toAddrs ++ msg.ccAddrs).filter
      (fun a => (matchForwarding fwd a.address).isSome)).isEmpty = false) :
    (∀ rf, rejectedFromOf cfg.allowForwardingFrom msg = some rf →
      processNewEmail cfg msg =
        { adminTasks := [rejectedAdminEmail rf fwd], outbound := [],
          flaggedProcessed := true })
    ∧ ((processNewEmail cfg msg).outbound ≠ [] →
      ∃ a0 rest, msg.fromAddrs = a0 :: rest
        ∧ cfg.allowForwardingFrom.contains (lowerStr a0.address) = true) := by
  constructor
  · intro rf hrf
    simp only [processNewEmail, hfwd, hrecip, hrf]
    simp
  · intro hob
    cases hfa : msg.fromAddrs with
    | nil =>
      have hrej : rejectedFromOf cfg.allowForwardingFrom msg = some "" := by
        simp [rejectedFromOf, hfa]
      simp only [processNewEmail, hfwd, hrecip, hrej] at hob
      simp at hob
    | cons a0 rest =>
      by_cases hc : lowerStr a0.address ∈ cfg.allowForwardingFrom
      · exact ⟨a0, rest, rfl, by simp [hc]⟩
      · have hrej : rejectedFromOf cfg.allowForwardingFrom msg = some msg.fromText := by
          simp [rejectedFromOf, hfa, hc]
        simp only [processNewEmail, hfwd, hrecip, hrej] at hob
        simp at hob

/-- Witness for `processNewEmail_authorization`: one matching recipient, a
sender outside the allow-list — the result is exactly the admin alert. -/
theorem processNewEmail_authorization_witness :
    processNewEmail { forwardingAddress := some "f@d", allowForwardingFrom := ["good@x"] }
        { seq := 5, toAddrs := [{ address := "f+12@d" }],
          fromAddrs := [{ address := "Bad@y" }], fromText := "Bad <bad@y>" }
      = { adminTasks := [rejectedAdminEmail "Bad <bad@y>" "f@d"], outbound := [],
          flaggedProcessed := true } :=
  (processNewEmail_authorization _ _ "f@d" rfl (by decide)).1 "Bad <bad@y>" (by decide)

/-! ### Reverse channel: C9 -/

theorem pushRecipient_cases (fwd : String) (msg : InboundEmail)
    (reply : Option (String × String)) (acc : List OutboundMsg × Bool) (r : Addr) :
    pushRecipient fwd msg reply acc r = acc
      ∨ (pushRecipient fwd msg reply acc r).2 = false := by
  cases h : matchForwarding fwd r.address with
  | none => left; simp [pushRecipient, h]
  | some tid => right; simp [pushRecipient, h]

theorem foldl_flag_invariant {α β : Type} (f : List β × Bool → α → List β × Bool)
    (hf : ∀ acc r, f acc r = acc ∨ (f acc r).2 = false) :
    ∀ (l : List α) (acc : List β × Bool), (acc.1 ≠ [] → acc.2 = false) →
      ((l.foldl f acc).1 ≠ [] → (l.foldl f acc).2 = false) := by
  intro l
  induction l with
  | nil => intro acc h; exact h
  | cons x t ih =>
    intro acc h
    rw [List.foldl_cons]
    refine ih _ ?_
    rcases hf acc x with he | hf2
    · rw [he]; exact h
    · intro _; exact hf2

theorem processNewEmail_flag (cfg : IncomingConfig) (msg : InboundEmail) :
    (processNewEmail cfg msg).outbound ≠ [] →
      (processNewEmail cfg msg).flaggedProcessed = false := by
  intro h
  cases hc : cfg.forwardingAddress with
  | none =>
    simp only [processNewEmail, hc] at h
    exact absurd rfl h
  | some fwd =>
    simp only [processNewEmail, hc] at h ⊢
    cases hre : ((msg.toAddrs ++ msg.ccAddrs).filter
        (fun a => (matchForwarding fwd a.address).isSome)).isEmpty with
    | true =>
      rw [if_pos hre] at h
      exact absurd rfl h
    | false =>
      have hreP : ¬ (((msg.toAddrs ++ msg.ccAddrs).filter
          (fun a => (matchForwarding fwd a.address).isSome)).isEmpty = true) := by
        rw [hre]
        exact Bool.false_ne_true
      rw [if_neg hreP] at h
      rw [if_neg Bool.false_ne_true]
      revert h
      cases hrj : rejectedFromOf cfg.allowForwardingFrom msg with
      | some rf =>
        intro h
        exact absurd rfl h
      | none =>
        intro h
        exact foldl_flag_invariant (pushRecipient fwd msg (replyCoords msg.inReplyTo))
          (pushRecipient_cases fwd msg (replyCoords msg.inReplyTo))
          ((msg.toAddrs ++ msg.ccAddrs).filter
            (fun a => (matchForwarding fwd a.address).isSome))
          ([], true) (fun hh => absurd rfl hh) h

theorem postParts_msgIdx (navOk submitOk : Nat → Bool) (mi seq : Nat) :
    ∀ (fuel i : Nat), ∀ a ∈ postParts navOk submitOk mi seq fuel i,
      a.msgIdx = mi := by
  intro fuel
  induction fuel with
  | zero => intro i a ha; cases ha
  | succ n ih =>
    intro i a ha
    rw [postParts] at ha
    by_cases hn : navOk i = true
    · rw [if_pos hn] at ha
      rcases List.mem_append.mp ha with h1 | h2
      · rcases List.mem_append.mp h1 with h3 | h4
        · by_cases h0 : i = 0
          · rw [if_pos h0] at h3
            rw [List.mem_singleton.mp h3]
            rfl
          · rw [if_neg h0] at h3
            cases h3
        · rw [List.mem_singleton.mp h4]
          rfl
      · by_cases hs : submitOk i = true
        · rw [if_pos hs] at h2
          exact ih (i + 1) a h2
        · rw [if_neg hs] at h2
          cases h2
    · rw [if_neg hn] at ha
      cases ha

theorem postParts_no_markDone (navOk submitOk : Nat → Bool) (mi seq : Nat) :
    ∀ (fuel i : Nat), i ≠ 0 → ∀ a ∈ postParts navOk submitOk mi seq fuel i,
      a.isMarkDone = false := by
  intro fuel
  induction fuel with
  | zero => intro i _ a ha; cases ha
  | succ n ih =>
    intro i hi a ha
    rw [postParts] at ha
    by_cases hn : navOk i = true
    · rw [if_pos hn, if_neg hi] at ha
      rcases List.mem_append.mp ha with h1 | h2
      · rcases List.mem_append.mp h1 with h3 | h4
        · cases h3
        · rw [List.mem_singleton.mp h4]
          rfl
      · by_cases hs : submitOk i = true
        · rw [if_pos hs] at h2
          exact ih (i + 1) (Nat.succ_ne_zero i) a h2
        · rw [if_neg hs] at h2
          cases h2
    · rw [if_neg hn] at ha
      cases ha

theorem enum_nodup {α : Type} (l : List α) : l.enum.Nodup :=
  (pairwise_fst_lt_enum l).imp
    (fun h hab => Nat.ne_of_lt h (congrArg Prod.fst hab))

theorem sendMessages_block (sizeLimit : Nat) (navOk submitOk : Nat → Nat → Bool)
    (outbound : List OutboundMsg) (mi : Nat) (m : OutboundMsg)
    (hm : outbound[mi]? = some m) :
    (sendMessagesToTeachers sizeLimit navOk submitOk outbound).filter
        (fun a => decide (a.msgIdx = mi))
      = postMsgTrace sizeLimit navOk submitOk (mi, m) := by
  have ha : (mi, m) ∈ outbound.enum := List.mem_enum_iff_getElem?.mpr hm
  unfold sendMessagesToTeachers
  rw [flatMap_filter_single _ _ outbound.enum (mi, m) (enum_nodup outbound) ha ?hother]
  · rw [List.filter_eq_self.mpr]
    intro a haa
    exact decide_eq_true (postParts_msgIdx _ _ _ _ _ _ a haa)
  case hother =>
    intro x hx hne
    rw [List.filter_eq_nil_iff]
    intro a haa
    have hidx : a.msgIdx = x.1 := postParts_msgIdx _ _ _ _ _ _ a haa
    have hx1 : x.1 ≠ mi := by
      intro h1
      apply hne
      have hget : outbound[x.1]? = some x.2 := List.mem_enum_iff_getElem?.mp ?_
      · have : some x.2 = some m := by rw [← hget, h1, hm]
        exact Prod.ext h1 (Option.some.inj this)
      · obtain ⟨j, y⟩ := x
        exact hx
    simp [hidx, hx1]

/-- C9: mark-done timing.  Intake never flags a message for which forwarding
entries were produced; the posting loop produces no action at all for an
outbound entry whose first navigation fails (a crash before posting leaves
the source unflagged); and when the first part is reached, the flagging
action comes immediately before the first chunk's submission — whatever that
submission's outcome — and never again later. -/
theorem sendMessagesToTeachers_markDone_timing (sizeLimit : Nat)
    (navOk submitOk : Nat → Nat → Bool) (outbound : List OutboundMsg)
    (mi : Nat) (m : OutboundMsg) (cfg : IncomingConfig) (msg : InboundEmail)
    (hm : outbound[mi]? = some m) :
    ((processNewEmail cfg msg).outbound ≠ [] →
      (processNewEmail cfg msg).flaggedProcessed = false)
    ∧ (navOk mi 0 = false →
      (sendMessagesToTeachers sizeLimit navOk submitOk outbound).filter
        (fun a => decide (a.msgIdx = mi)) = [])
    ∧ (navOk mi 0 = true →
      0 < numPartsFor (capacityFor sizeLimit m.text.length) m.text.length →
      ∃ rest, (sendMessagesToTeachers sizeLimit navOk submitOk outbound).filter
          (fun a => decide (a.msgIdx = mi))
        = PostAction.markDone mi m.seq
            :: PostAction.submitPart mi m.seq 0 (submitOk mi 0) :: rest
        ∧ ∀ a ∈ rest, a.isMarkDone = false) := by
  refine ⟨processNewEmail_flag cfg msg, ?_, ?_⟩
  · intro hnav
    rw [sendMessages_block sizeLimit navOk submitOk outbound mi m hm]
    simp only [postMsgTrace]
    cases hnp : numPartsFor (capacityFor sizeLimit m.text.length) m.text.length with
    | zero => rfl
    | succ k =>
      rw [postParts, if_neg]
      rw [hnav]
      exact Bool.false_ne_true
  · intro hnav hpos
    rw [sendMessages_block sizeLimit navOk submitOk outbound mi m hm]
    simp only [postMsgTrace]
    cases hnp : numPartsFor (capacityFor sizeLimit m.text.length) m.text.length with
    | zero => rw [hnp] at hpos; cases hpos
    | succ k =>
      refine ⟨if submitOk mi 0 = true
          then postParts (navOk mi) (submitOk mi) mi m.seq k 1 else [], ?_, ?_⟩
      · rw [postParts, if_pos hnav, if_pos rfl]
        rfl
      · intro a haa
        by_cases hs : submitOk mi 0 = true
        · rw [if_pos hs] at haa
          exact postParts_no_markDone _ _ _ _ _ _ (Nat.one_ne_zero) a haa
        · rw [if_neg hs] at haa
          cases haa

/-- Witness for `sendMessagesToTeachers_markDone_timing`: one outbound entry
of four characters with limit 4, navigation succeeds, submission fails — the
flag action still precedes the failing first chunk. -/
theorem sendMessagesToTeachers_markDone_timing_witness :
    ∃ rest, (sendMessagesToTeachers 4 (fun _ _ => true) (fun _ _ => false)
        [{ teacherId := "7", replyThreadId := none, subject := none,
           text := "abcd", seq := 3 }]).filter (fun a => decide (a.msgIdx = 0))
      = PostAction.markDone 0 3 :: PostAction.submitPart 0 3 0 false :: rest
      ∧ ∀ a ∈ rest, a.isMarkDone = false :=
  (sendMessagesToTeachers_markDone_timing 4 (fun _ _ => true) (fun _ _ => false)
    [{ teacherId := "7", replyThreadId := none, subject := none,
       text := "abcd", seq := 3 }] 0
    { teacherId := "7", replyThreadId := none, subject := none,
      text := "abcd", seq := 3 }
    {} { seq := 0 } (by decide)).2.2 (by decide) (by decide)

end ElternEmailer
